import Mathlib

/-
  A verification development for the sim2600 transistor-level circuit
  simulator core (files sim2600/cirsim.h and sim2600/mycircuitsimulator.pyx).

  The Python/Cython source is embedded shallowly:
  - wire states and gate states are the source's exact integer bit values,
    modelled as Nat constants;
  - the per-wire and per-transistor records are Lean structures holding the
    same fields as the source objects, with the mutable arrays
    (_wireState, _wirePulled, _transistorState, recalcArray,
    newRecalcArray, recalcOrderStack, newRecalcOrderStack) threaded
    explicitly through every operation of the WireCalculator;
  - Python list indexing (which accepts negative indices, wrapping once
    from the end) is modelled by pyIdx / pyGetD / pySet; an out-of-range
    access, which raises IndexError in Python, is modelled as a default
    read or a no-op write (no claim below depends on an out-of-range path);
  - Python set insertion is modelled as order-preserving deduplicating
    insertion into a list, fixing the source's implementation-defined
    set-iteration order to insertion order;
  - the recursive group construction carries an explicit fuel parameter,
    an artifact of totality only: with enough fuel it performs exactly the
    source's recursion;
  - the diagnostic counters (numAddWireToGroup, numAddWireTransistor,
    numWiresRecalculated) do not influence any control flow and are not
    modelled.
-/

namespace Sim2600

/-! ### WireState and gate-state constants (cirsim.h, cpdef enum WireState) -/

def PULLED_HIGH : Nat := 1
def PULLED_LOW : Nat := 2
def GROUNDED : Nat := 4
def HIGH : Nat := 8
def FLOATING_HIGH : Nat := 16
def FLOATING_LOW : Nat := 32
def FLOATING : Nat := 64

def ANY_HIGH : Nat := FLOATING_HIGH ||| HIGH ||| PULLED_HIGH
def ANY_LOW : Nat := FLOATING_LOW ||| GROUNDED ||| PULLED_LOW

def GATE_LOW : Nat := 0
def GATE_HIGH : Nat := 1

/-! ### Python-style list access

Python list indexing accepts negative indices by wrapping once from the
end.  pyIdx resolves an integer index to a concrete list position; out of
range resolves to none (Python would raise IndexError; the operations
below use a default read / no-op write on that path, and no settled claim
depends on it). -/

def pyIdx (n : Nat) (i : Int) : Option Nat :=
  if 0 ≤ i ∧ i < (n : Int) then some i.toNat
  else if -(n : Int) ≤ i ∧ i < 0 then some ((n : Int) + i).toNat
  else none

def pyGetD {α : Type} (l : List α) (i : Int) (d : α) : α :=
  match pyIdx l.length i with
  | some p => l.getD p d
  | none => d

def pySet {α : Type} (l : List α) (i : Int) (v : α) : List α :=
  match pyIdx l.length i with
  | some p => l.set p v
  | none => l

/-! ### Records of the netlist -/

/-- One wire record: the static data of the source's Wire object
(name, ctInds, gateInds).  The mutable state and pulled fields live in the
separate arrays of the simulator state, as in cirsim.h's WireCalculator. -/
structure WireRec where
  name : String
  ctInds : List Nat
  gateInds : List Nat
  deriving Repr, DecidableEq

/-- One transistor's wire indices, a row of _transistorWires
(gate, side1, side2). -/
structure TransRec where
  gate : Int
  s1 : Int
  s2 : Int
  deriving Repr, DecidableEq

/-- The simulator state threaded through the WireCalculator operations:
the static netlist (wires, transWires, rail indices) together with the
mutable arrays (_wireState, _wirePulled, _transistorState) and the
work-list bookkeeping (recalcArray, newRecalcArray, recalcOrderStack,
newRecalcOrderStack). -/
structure Sim where
  wires : List (Option WireRec)
  transWires : List TransRec
  gndWireIndex : Int
  vccWireIndex : Int
  wireState : List Nat
  wirePulled : List Nat
  transistorState : List Nat
  recalcArray : List Nat
  newRecalcArray : List Nat
  recalcOrderStack : List Int
  newRecalcOrderStack : List Int
  deriving Repr, DecidableEq

/-! ### Accessors -/

def stateAt (s : Sim) (i : Int) : Nat := pyGetD s.wireState i 0

def pulledAt (s : Sim) (i : Int) : Nat := pyGetD s.wirePulled i 0

def wireAt (s : Sim) (i : Int) : Option WireRec := pyGetD s.wires i none

def transAt (s : Sim) (t : Nat) : TransRec :=
  s.transWires.getD t ⟨-1, -1, -1⟩

def setState (s : Sim) (i : Int) (v : Nat) : Sim :=
  { s with wireState := pySet s.wireState i v }

def setTransState (s : Sim) (t : Nat) (v : Nat) : Sim :=
  { s with transistorState := s.transistorState.set t v }

/-! ### WireCalculator._floatWire (cirsim.h lines 684-696)

The source reads the state once, checks the pulled field, and in the
unpulled branch applies two sequential ifs on the saved state. -/

def floatWire (s : Sim) (i : Int) : Sim :=
  let state := stateAt s i
  if pulledAt s i = PULLED_HIGH then setState s i PULLED_HIGH
  else if pulledAt s i = PULLED_LOW then setState s i PULLED_LOW
  else
    let s1 := if state = GROUNDED ∨ state = PULLED_LOW then setState s i FLOATING_LOW else s
    if state = HIGH ∨ state = PULLED_HIGH then setState s1 i FLOATING_HIGH else s1

/-! ### CircuitSimulator.isHigh / isLow (cirsim.h lines 263-267: bit mask
against ANY_HIGH / ANY_LOW) and the pyx Wire.isHigh / isLow
(mycircuitsimulator.pyx lines 87-99: explicit three-state comparison). -/

def isHigh (s : Sim) (i : Int) : Bool :=
  (stateAt s i &&& ANY_HIGH) ≠ 0

def isLow (s : Sim) (i : Int) : Bool :=
  (stateAt s i &&& ANY_LOW) ≠ 0

def wireIsHigh (state : Nat) : Bool :=
  state = FLOATING_HIGH ∨ state = PULLED_HIGH ∨ state = HIGH

def wireIsLow (state : Nat) : Bool :=
  state = FLOATING_LOW ∨ state = PULLED_LOW ∨ state = GROUNDED

/-! ### CircuitSimulator._setPulledHighOrLow / setHigh / setLow
(cirsim.h lines 240-261): pin a pad, writing both pulled and state. -/

def setPulledHighOrLow (s : Sim) (i : Int) (boolHigh : Bool) : Sim :=
  if boolHigh then
    { s with wirePulled := pySet s.wirePulled i PULLED_HIGH,
             wireState := pySet s.wireState i PULLED_HIGH }
  else
    { s with wirePulled := pySet s.wirePulled i PULLED_LOW,
             wireState := pySet s.wireState i PULLED_LOW }

def setHigh (s : Sim) (i : Int) : Sim := setPulledHighOrLow s i true

def setLow (s : Sim) (i : Int) : Sim := setPulledHighOrLow s i false

/-! ### Basic lemmas about pyGetD / pySet -/

theorem pyIdx_lt {n : Nat} {i : Int} {p : Nat} (h : pyIdx n i = some p) : p < n := by
  unfold pyIdx at h
  split at h
  · rename_i hc
    cases h
    omega
  · split at h
    · rename_i hc
      cases h
      omega
    · cases h

theorem pySet_length {α : Type} (l : List α) (i : Int) (v : α) :
    (pySet l i v).length = l.length := by
  unfold pySet
  cases hp : pyIdx l.length i with
  | none => rfl
  | some p => simp

theorem getD_set_self {α : Type} (l : List α) (p : Nat) (v d : α) (hp : p < l.length) :
    (l.set p v).getD p d = v := by
  simp [List.getD, List.getElem?_set_self, hp]

theorem getD_set_ne {α : Type} (l : List α) (p q : Nat) (v d : α) (hne : p ≠ q) :
    (l.set p v).getD q d = l.getD q d := by
  simp [List.getD, List.getElem?_set_ne hne]

theorem pyGetD_pySet_self {α : Type} (l : List α) (i : Int) (v d : α) {p : Nat}
    (hp : pyIdx l.length i = some p) : pyGetD (pySet l i v) i d = v := by
  unfold pyGetD pySet
  rw [hp]
  rw [show (l.set p v).length = l.length by simp]
  rw [hp]
  exact getD_set_self l p v d (pyIdx_lt hp)

theorem pyGetD_pySet_none {α : Type} (l : List α) (i : Int) (v d : α)
    (hp : pyIdx l.length i = none) : pyGetD (pySet l i v) i d = pyGetD l i d := by
  unfold pyGetD pySet
  rw [hp]
  simp only
  rw [hp]

/-- Writing through pySet at index j does not change the pyGetD read at
index i when the two indices resolve to different positions. -/
theorem pyGetD_pySet_other {α : Type} (l : List α) (i j : Int) (v d : α)
    (h : pyIdx l.length i ≠ pyIdx l.length j ∨ pyIdx l.length j = none) :
    pyGetD (pySet l j v) i d = pyGetD l i d := by
  unfold pyGetD pySet
  cases hj : pyIdx l.length j with
  | none => rfl
  | some q =>
    rw [show (l.set q v).length = l.length by simp]
    cases hi : pyIdx l.length i with
    | none => rfl
    | some p =>
      rcases h with h | h
      · rw [hi, hj] at h
        have hpq : p ≠ q := by
          intro he
          exact h (by rw [he])
        simpa using getD_set_ne l q p v d (fun he => hpq he.symm)
      · rw [hj] at h
        cases h

theorem pyIdx_inRange {n : Nat} {i : Int} (h0 : 0 ≤ i) (h1 : i < (n : Int)) :
    pyIdx n i = some i.toNat := by
  unfold pyIdx
  rw [if_pos ⟨h0, h1⟩]

theorem pySet_pySet_same {α : Type} (l : List α) (i : Int) (v w : α) :
    pySet (pySet l i w) i v = pySet l i v := by
  unfold pySet
  cases hp : pyIdx l.length i with
  | none => rw [hp]
  | some p =>
    rw [show (l.set p w).length = l.length by simp, hp]
    simp

/-! ### Group construction (WireCalculator._addWireToGroup /
_addWireTransistor, cirsim.h lines 816-853)

The Python group is a set of wire indices; it is modelled as a list with
order-preserving deduplicating insertion (ginsert), which fixes the
source's implementation-defined set order to insertion order.  The fuel
parameter only bounds the recursion depth; with enough fuel the functions
perform exactly the source's recursion.  In _addWireTransistor the source
initialises other = -1 and runs both side comparisons, the later
assignment winning, then recurses. -/

def ginsert (g : List Int) (i : Int) : List Int :=
  if i ∈ g then g else g ++ [i]

/-- _addWireToGroup with the body of _addWireTransistor inlined in the
fold over ctInds, so that the recursion is structural on the fuel;
addWireTransistor below names the inlined step and unfolds to it by rfl. -/
def addWireToGroup : Nat → Sim → Int → List Int → List Int
  | 0, _, _, g => g
  | fuel + 1, s, i, g =>
    let g1 := ginsert g i
    if i = s.gndWireIndex ∨ i = s.vccWireIndex then g1
    else
      match wireAt s i with
      | none => g1
      | some w =>
        w.ctInds.foldl
          (fun acc t =>
            if s.transistorState.getD t 0 = GATE_LOW then acc
            else
              let c1 := (transAt s t).s1
              let c2 := (transAt s t).s2
              let other := if c2 = i then c1 else if c1 = i then c2 else -1
              if other = s.vccWireIndex ∨ other = s.gndWireIndex then ginsert acc other
              else if other ∈ acc then acc
              else addWireToGroup fuel s other acc)
          g1

def addWireTransistor (fuel : Nat) (s : Sim) (i : Int) (t : Nat) (g : List Int) :
    List Int :=
  if s.transistorState.getD t 0 = GATE_LOW then g
  else
    let c1 := (transAt s t).s1
    let c2 := (transAt s t).s2
    let other := if c2 = i then c1 else if c1 = i then c2 else -1
    if other = s.vccWireIndex ∨ other = s.gndWireIndex then ginsert g other
    else if other ∈ g then g
    else addWireToGroup fuel s other g

theorem addWireToGroup_succ (fuel : Nat) (s : Sim) (i : Int) (g : List Int) :
    addWireToGroup (fuel + 1) s i g =
      (let g1 := ginsert g i
       if i = s.gndWireIndex ∨ i = s.vccWireIndex then g1
       else
         match wireAt s i with
         | none => g1
         | some w => w.ctInds.foldl (fun acc t => addWireTransistor fuel s i t acc) g1) :=
  rfl

/-! ### Group resolution (WireCalculator._getWireValue, cirsim.h lines
761-814, and _countWireSizes, lines 858-871)

The source initialises the running value from the state of the first
member of list(group), then iterates over the group with early returns
for the rails, promotes the value on pulled members, tracks whether any
member is FLOATING_LOW / FLOATING_HIGH (an if/elif pair), and finally
applies the capacitance tie-break.  The whole group is kept at hand for
the gnd-membership test in the vcc branch and for the tie-break counts. -/

def numComp (s : Sim) (i : Int) : Nat :=
  match wireAt s i with
  | none => 0
  | some w => w.ctInds.length + w.gateInds.length

/-- The loop body of _countWireSizes: two sequential ifs on the wire's
state, accumulating into the (countFl, countFh) pair. -/
def cwsStep (s : Sim) (ac : Nat × Nat) (i : Int) : Nat × Nat :=
  let wireState := stateAt s i
  let num := numComp s i
  let ac1 := if wireState = FLOATING_LOW then (ac.1 + num, ac.2) else ac
  if wireState = FLOATING_HIGH then (ac1.1, ac1.2 + num) else ac1

def countWireSizes (s : Sim) (g : List Int) : Nat × Nat :=
  g.foldl (cwsStep s) (0, 0)

def gwvFinal (s : Sim) (whole : List Int) (value : Nat) (sawFl sawFh : Bool) : Nat :=
  if value = FLOATING_LOW ∨ value = FLOATING_HIGH then
    if sawFl ∧ sawFh then
      let sizes := countWireSizes s whole
      if sizes.2 < sizes.1 then FLOATING_LOW else FLOATING_HIGH
    else value
  else value

def gwvScan (s : Sim) (whole : List Int) :
    List Int → Nat → Bool → Bool → Nat
  | [], value, sawFl, sawFh => gwvFinal s whole value sawFl sawFh
  | i :: rest, value, sawFl, sawFh =>
    if i = s.gndWireIndex then GROUNDED
    else if i = s.vccWireIndex then
      if s.gndWireIndex ∈ whole then GROUNDED else HIGH
    else
      let wirePulled := pulledAt s i
      let wireState := stateAt s i
      let value1 :=
        if wirePulled = PULLED_HIGH then PULLED_HIGH
        else if wirePulled = PULLED_LOW then PULLED_LOW
        else value
      if wireState = FLOATING_LOW then gwvScan s whole rest value1 true sawFh
      else if wireState = FLOATING_HIGH then gwvScan s whole rest value1 sawFl true
      else gwvScan s whole rest value1 sawFl sawFh

def getWireValue (s : Sim) (g : List Int) : Nat :=
  gwvScan s g g (stateAt s (g.headD 0)) false false

/-! ### Transistor switching (WireCalculator._turnTransistorOn /
_turnTransistorOff, cirsim.h lines 729-759)

Turning a transistor off floats both side wires unconditionally; both
functions enqueue the side wires into the next-pass work-list, deduped
through newRecalcArray. -/

def enqueueNew (s : Sim) (w : Int) : Sim :=
  if pyGetD s.newRecalcArray w 0 = 0 then
    { s with newRecalcArray := pySet s.newRecalcArray w 1,
             newRecalcOrderStack := s.newRecalcOrderStack ++ [w] }
  else s

def turnTransistorOn (s : Sim) (t : Nat) : Sim :=
  let s1 := setTransState s t GATE_HIGH
  let s2 := enqueueNew s1 (transAt s1 t).s1
  enqueueNew s2 (transAt s2 t).s2

def turnTransistorOff (s : Sim) (t : Nat) : Sim :=
  let s1 := setTransState s t GATE_LOW
  let c1 := (transAt s1 t).s1
  let c2 := (transAt s1 t).s2
  let s2 := floatWire s1 c1
  let s3 := floatWire s2 c2
  let s4 := enqueueNew s3 c1
  enqueueNew s4 c2

/-! ### One wire recalculation (WireCalculator._doWireRecalc, cirsim.h
lines 699-727)

Rails return immediately.  Otherwise the connected group is built, its
new value resolved, and the value written back to every non-rail member;
each member's gate transistors are switched on or off as the new value
is high or low (the gate state is read once, then both ifs run). -/

def doWireRecalc (fuel : Nat) (s : Sim) (wireIndex : Int) : Sim :=
  if wireIndex = s.gndWireIndex ∨ wireIndex = s.vccWireIndex then s
  else
    let group := addWireToGroup fuel s wireIndex []
    let newValue := getWireValue s group
    let newHigh := newValue = HIGH ∨ newValue = PULLED_HIGH ∨ newValue = FLOATING_HIGH
    group.foldl
      (fun acc j =>
        if j = s.gndWireIndex ∨ j = s.vccWireIndex then acc
        else
          let acc1 := setState acc j newValue
          match wireAt s j with
          | none => acc1
          | some w =>
            w.gateInds.foldl
              (fun a t =>
                let gateState := a.transistorState.getD t 0
                let a1 := if newHigh ∧ gateState = GATE_LOW then turnTransistorOn a t else a
                if ¬newHigh ∧ gateState = GATE_HIGH then turnTransistorOff a1 t else a1)
              acc1)
      s

/-! ### The iteration driver (WireCalculator._doRecalcIterations,
cirsim.h lines 614-681, and recalcWireList, lines 598-610)

One pass processes the current work-list in order, then swaps the marker
arrays and promotes the next-pass work-list.  recalcSteps runs up to
stepLimit = 400 passes, reporting whether the limit was reached.  On
reaching the limit the failure is raised (modelled as the Bool component)
only when halfClkCount > 0; otherwise it is only logged and the partial
state is kept.  The halfClkCount < 20 sanity check that re-zeroes
recalcArray is modelled; the log callback and prints are not. -/

def onePass (fuel : Nat) (s : Sim) : Sim :=
  let s1 := s.recalcOrderStack.foldl
    (fun a wireIndex =>
      let a1 := { a with newRecalcArray := pySet a.newRecalcArray wireIndex 0 }
      let a2 := doWireRecalc fuel a1 wireIndex
      { a2 with recalcArray := pySet a2.recalcArray wireIndex 0 })
    s
  { s1 with recalcArray := s1.newRecalcArray,
            newRecalcArray := s1.recalcArray,
            recalcOrderStack := s1.newRecalcOrderStack,
            newRecalcOrderStack := [] }

def stepLimit : Nat := 400

def recalcSteps (fuel : Nat) : Nat → Sim → Sim × Bool
  | 0, s => (s, true)
  | n + 1, s =>
    if s.recalcOrderStack = [] then (s, false)
    else recalcSteps fuel n (onePass fuel s)

def doRecalcIterations (fuel : Nat) (s : Sim) (halfClkCount : Nat) : Sim × Bool :=
  let r := recalcSteps fuel stepLimit s
  if r.2 ∧ 0 < halfClkCount then (r.1, true)
  else
    if halfClkCount < 20 ∧ r.1.recalcArray.any (fun x => x ≠ 0) then
      ({ r.1 with recalcArray := List.replicate r.1.recalcArray.length 0 }, false)
    else (r.1, false)

def recalcWireList (fuel : Nat) (s : Sim) (nwireList : List Int) (halfClkCount : Nat) :
    Sim × Bool :=
  let s1 := { s with recalcOrderStack := [], newRecalcOrderStack := [] }
  let s2 := nwireList.foldl
    (fun a wireIndex =>
      { a with recalcOrderStack := a.recalcOrderStack ++ [wireIndex],
               recalcArray := pySet a.recalcArray wireIndex 1 })
    s1
  doRecalcIterations fuel s2 halfClkCount

/-- CircuitSimulator.recalcAllWires: seed with every non-null wire index
(cirsim.h lines 174-180). -/
def recalcAllWires (fuel : Nat) (s : Sim) (halfClkCount : Nat) : Sim × Bool :=
  recalcWireList fuel s
    (((List.range s.wires.length).filter (fun i => (s.wires.getD i none).isSome)).map
      (fun i => (i : Int)))
    halfClkCount

/-! ### A small concrete netlist used by witnesses

An inverter-like circuit: wires 0 = VCC, 1 = VSS, 2 = input A, 3 and 4 the
two channel wires of transistor 0 (gate = A).  Transistors 1-4 are
rail-tied padding so that the number of transistors is at least the number
of wires (the work-list marker arrays are sized by transistor count in the
source). -/

def simW : Sim where
  wires := [some ⟨"VCC", [], []⟩, some ⟨"VSS", [1, 2, 3, 4], [1, 2, 3, 4]⟩,
            some ⟨"A", [], [0]⟩, some ⟨"D", [0], []⟩, some ⟨"E", [0], []⟩]
  transWires := [⟨2, 3, 4⟩, ⟨1, 1, 1⟩, ⟨1, 1, 1⟩, ⟨1, 1, 1⟩, ⟨1, 1, 1⟩]
  gndWireIndex := 1
  vccWireIndex := 0
  wireState := [HIGH, GROUNDED, 0, 0, 0]
  wirePulled := [0, 0, 0, 0, 0]
  transistorState := [0, 0, 0, 0, 0]
  recalcArray := [0, 0, 0, 0, 0]
  newRecalcArray := [0, 0, 0, 0, 0]
  recalcOrderStack := []
  newRecalcOrderStack := []

/-! ### Simple facts about setState and floatWire -/

theorem pulledAt_setState (s : Sim) (j i : Int) (v : Nat) :
    pulledAt (setState s j v) i = pulledAt s i := rfl

theorem stateAt_setState_self (s : Sim) {i : Int} (v : Nat) {p : Nat}
    (hidx : pyIdx s.wireState.length i = some p) :
    stateAt (setState s i v) i = v :=
  pyGetD_pySet_self _ _ _ _ hidx

theorem setState_setState_same (s : Sim) (i : Int) (v w : Nat) :
    setState (setState s i w) i v = setState s i v := by
  unfold setState
  simp only
  rw [pySet_pySet_same]

/-- The four write branches of _floatWire, as a single conditional
equation (the unpulled branch's two sequential ifs collapse to an
if/else chain because their state sets are disjoint). -/
theorem floatWire_eq (s : Sim) (i : Int) :
    floatWire s i =
      (if pulledAt s i = PULLED_HIGH then setState s i PULLED_HIGH
       else if pulledAt s i = PULLED_LOW then setState s i PULLED_LOW
       else if stateAt s i = GROUNDED ∨ stateAt s i = PULLED_LOW then setState s i FLOATING_LOW
       else if stateAt s i = HIGH ∨ stateAt s i = PULLED_HIGH then setState s i FLOATING_HIGH
       else s) := by
  unfold floatWire
  by_cases hph : pulledAt s i = PULLED_HIGH
  · rw [if_pos hph, if_pos hph]
  · rw [if_neg hph, if_neg hph]
    by_cases hpl : pulledAt s i = PULLED_LOW
    · rw [if_pos hpl, if_pos hpl]
    · rw [if_neg hpl, if_neg hpl]
      by_cases hg : stateAt s i = GROUNDED ∨ stateAt s i = PULLED_LOW
      · have hnh : ¬(stateAt s i = HIGH ∨ stateAt s i = PULLED_HIGH) := by
          rcases hg with hg | hg <;> rw [hg] <;> decide
        rw [if_pos hg, if_pos hg, if_neg hnh]
      · rw [if_neg hg, if_neg hg]

/-! ## Claim C6 — float_wire postcondition and idempotence -/

/-- C6: for every wire i (index in range), after floatWire(i) the wire's
state is PULLED_HIGH when pulled = PULLED_HIGH, PULLED_LOW when
pulled = PULLED_LOW, and otherwise FLOATING_LOW when the prior state was
GROUNDED or PULLED_LOW, FLOATING_HIGH when the prior state was HIGH or
PULLED_HIGH, and unchanged for every other prior state; moreover
floatWire is idempotent, so in particular a wire with
pulled = PULLED_HIGH stays PULLED_HIGH and a wire with
pulled = PULLED_LOW stays PULLED_LOW. -/
theorem C6_floatWire_spec (s : Sim) (i : Int)
    (h0 : 0 ≤ i) (h1 : i < (s.wireState.length : Int)) :
    stateAt (floatWire s i) i =
      (if pulledAt s i = PULLED_HIGH then PULLED_HIGH
       else if pulledAt s i = PULLED_LOW then PULLED_LOW
       else if stateAt s i = GROUNDED ∨ stateAt s i = PULLED_LOW then FLOATING_LOW
       else if stateAt s i = HIGH ∨ stateAt s i = PULLED_HIGH then FLOATING_HIGH
       else stateAt s i)
    ∧ floatWire (floatWire s i) i = floatWire s i := by
  have hidx : pyIdx s.wireState.length i = some i.toNat := pyIdx_inRange h0 h1
  have hset : ∀ v : Nat, stateAt (setState s i v) i = v :=
    fun v => stateAt_setState_self s v hidx
  have hsetp : ∀ v : Nat, pulledAt (setState s i v) i = pulledAt s i :=
    fun v => pulledAt_setState s i i v
  have hsetidx : ∀ v : Nat,
      pyIdx (setState s i v).wireState.length i = some i.toNat := by
    intro v
    unfold setState
    simp only
    rw [pySet_length]
    exact hidx
  by_cases hph : pulledAt s i = PULLED_HIGH
  · rw [floatWire_eq s i, if_pos hph]
    refine ⟨by rw [if_pos hph]; exact hset _, ?_⟩
    rw [floatWire_eq _ i, hsetp, if_pos hph, setState_setState_same]
  · by_cases hpl : pulledAt s i = PULLED_LOW
    · rw [floatWire_eq s i, if_neg hph, if_pos hpl]
      refine ⟨by rw [if_neg hph, if_pos hpl]; exact hset _, ?_⟩
      rw [floatWire_eq _ i, hsetp, if_neg hph, if_pos hpl, setState_setState_same]
    · by_cases hg : stateAt s i = GROUNDED ∨ stateAt s i = PULLED_LOW
      · rw [floatWire_eq s i, if_neg hph, if_neg hpl, if_pos hg]
        refine ⟨by rw [if_neg hph, if_neg hpl, if_pos hg]; exact hset _, ?_⟩
        rw [floatWire_eq _ i, hsetp, if_neg hph, if_neg hpl, hset]
        rw [if_neg (by decide : ¬(FLOATING_LOW = GROUNDED ∨ FLOATING_LOW = PULLED_LOW)),
            if_neg (by decide : ¬(FLOATING_LOW = HIGH ∨ FLOATING_LOW = PULLED_HIGH))]
      · by_cases hh : stateAt s i = HIGH ∨ stateAt s i = PULLED_HIGH
        · rw [floatWire_eq s i, if_neg hph, if_neg hpl, if_neg hg, if_pos hh]
          refine ⟨by rw [if_neg hph, if_neg hpl, if_neg hg, if_pos hh]; exact hset _, ?_⟩
          rw [floatWire_eq _ i, hsetp, if_neg hph, if_neg hpl, hset]
          rw [if_neg (by decide : ¬(FLOATING_HIGH = GROUNDED ∨ FLOATING_HIGH = PULLED_LOW)),
              if_neg (by decide : ¬(FLOATING_HIGH = HIGH ∨ FLOATING_HIGH = PULLED_HIGH))]
        · rw [floatWire_eq s i, if_neg hph, if_neg hpl, if_neg hg, if_neg hh]
          refine ⟨by rw [if_neg hph, if_neg hpl, if_neg hg, if_neg hh], ?_⟩
          rw [floatWire_eq s i, if_neg hph, if_neg hpl, if_neg hg, if_neg hh]

/-- C6 witness: the postcondition evaluated on the concrete netlist simW
at wire 3 (unpulled, state 0): floating it leaves it unchanged. -/
theorem C6_floatWire_spec_witness :
    stateAt (floatWire simW 3) 3 =
      (if pulledAt simW 3 = PULLED_HIGH then PULLED_HIGH
       else if pulledAt simW 3 = PULLED_LOW then PULLED_LOW
       else if stateAt simW 3 = GROUNDED ∨ stateAt simW 3 = PULLED_LOW then FLOATING_LOW
       else if stateAt simW 3 = HIGH ∨ stateAt simW 3 = PULLED_HIGH then FLOATING_HIGH
       else stateAt simW 3)
    ∧ floatWire (floatWire simW 3) 3 = floatWire simW 3 :=
  C6_floatWire_spec simW 3 (by decide) (by decide)

/-! ## Claim C10 — isHigh / isLow characterization -/

/-- C10: for every wire whose stored state is one of the seven WireState
values, isHigh and isLow are never both true; isHigh is true exactly for
HIGH, PULLED_HIGH and FLOATING_HIGH, isLow exactly for GROUNDED,
PULLED_LOW and FLOATING_LOW, and for FLOATING both are false; the masked
isHigh/isLow of cirsim.h agree with the pyx Wire.isHigh/isLow
comparisons. -/
theorem C10_isHigh_isLow_spec (s : Sim) (i : Int)
    (h : stateAt s i = PULLED_HIGH ∨ stateAt s i = PULLED_LOW ∨
         stateAt s i = GROUNDED ∨ stateAt s i = HIGH ∨
         stateAt s i = FLOATING_HIGH ∨ stateAt s i = FLOATING_LOW ∨
         stateAt s i = FLOATING) :
    ¬(isHigh s i = true ∧ isLow s i = true)
    ∧ (isHigh s i = true ↔
        (stateAt s i = HIGH ∨ stateAt s i = PULLED_HIGH ∨ stateAt s i = FLOATING_HIGH))
    ∧ (isLow s i = true ↔
        (stateAt s i = GROUNDED ∨ stateAt s i = PULLED_LOW ∨ stateAt s i = FLOATING_LOW))
    ∧ (stateAt s i = FLOATING → isHigh s i = false ∧ isLow s i = false)
    ∧ isHigh s i = wireIsHigh (stateAt s i)
    ∧ isLow s i = wireIsLow (stateAt s i) := by
  unfold isHigh isLow wireIsHigh wireIsLow
  rcases h with h | h | h | h | h | h | h <;> rw [h] <;> decide

/-- C10 witness: the characterization applied to wire 0 of simW, whose
state is HIGH. -/
theorem C10_isHigh_isLow_spec_witness :
    ¬(isHigh simW 0 = true ∧ isLow simW 0 = true)
    ∧ (isHigh simW 0 = true ↔
        (stateAt simW 0 = HIGH ∨ stateAt simW 0 = PULLED_HIGH ∨
         stateAt simW 0 = FLOATING_HIGH))
    ∧ (isLow simW 0 = true ↔
        (stateAt simW 0 = GROUNDED ∨ stateAt simW 0 = PULLED_LOW ∨
         stateAt simW 0 = FLOATING_LOW))
    ∧ (stateAt simW 0 = FLOATING → isHigh simW 0 = false ∧ isLow simW 0 = false)
    ∧ isHigh simW 0 = wireIsHigh (stateAt simW 0)
    ∧ isLow simW 0 = wireIsLow (stateAt simW 0) :=
  C10_isHigh_isLow_spec simW 0 (by decide)

/-! ## Claims C4 and C5 — group resolution

Spec-side descriptions of the scan of _getWireValue, written independently
of the accumulator recursion: the final running value, the two
floating-seen flags, and the two capacitance sums. -/

/-- The running value after the pulled-promotion scan of the group,
started from v0. -/
def pulledValue (s : Sim) (g : List Int) (v0 : Nat) : Nat :=
  g.foldl
    (fun v i =>
      if pulledAt s i = PULLED_HIGH then PULLED_HIGH
      else if pulledAt s i = PULLED_LOW then PULLED_LOW
      else v)
    v0

/-- Whether some member of the group is currently FLOATING_LOW. -/
def sawFL (s : Sim) (g : List Int) : Bool :=
  g.any (fun i => stateAt s i = FLOATING_LOW)

/-- Whether some member of the group is currently FLOATING_HIGH. -/
def sawFH (s : Sim) (g : List Int) : Bool :=
  g.any (fun i => stateAt s i = FLOATING_HIGH)

/-- Sum of |control transistors| + |gate transistors| over the members
currently FLOATING_LOW. -/
def flSum (s : Sim) (g : List Int) : Nat :=
  ((g.filter (fun i => stateAt s i = FLOATING_LOW)).map (numComp s)).sum

/-- Sum of |control transistors| + |gate transistors| over the members
currently FLOATING_HIGH. -/
def fhSum (s : Sim) (g : List Int) : Nat :=
  ((g.filter (fun i => stateAt s i = FLOATING_HIGH)).map (numComp s)).sum

theorem gwvScan_gnd_mem (s : Sim) (whole : List Int) :
    ∀ (rest : List Int) (v : Nat) (fl fh : Bool),
      s.gndWireIndex ∈ rest → s.gndWireIndex ∈ whole →
      gwvScan s whole rest v fl fh = GROUNDED := by
  intro rest
  induction rest with
  | nil => intro v fl fh h _; cases h
  | cons i r ih =>
    intro v fl fh h hw
    unfold gwvScan
    by_cases hig : i = s.gndWireIndex
    · rw [if_pos hig]
    · rw [if_neg hig]
      have hr : s.gndWireIndex ∈ r := by
        rcases List.mem_cons.mp h with h | h
        · exact absurd h.symm hig
        · exact h
      by_cases hiv : i = s.vccWireIndex
      · rw [if_pos hiv, if_pos hw]
      · rw [if_neg hiv]
        simp only
        split
        · exact ih _ _ _ hr hw
        · split
          · exact ih _ _ _ hr hw
          · exact ih _ _ _ hr hw

theorem gwvScan_vcc_mem (s : Sim) (whole : List Int) (hgw : s.gndWireIndex ∉ whole) :
    ∀ (rest : List Int) (v : Nat) (fl fh : Bool),
      s.vccWireIndex ∈ rest → s.gndWireIndex ∉ rest →
      gwvScan s whole rest v fl fh = HIGH := by
  intro rest
  induction rest with
  | nil => intro v fl fh h _; cases h
  | cons i r ih =>
    intro v fl fh h hgr
    have hig : ¬i = s.gndWireIndex := fun he => hgr (he ▸ List.mem_cons_self i r)
    unfold gwvScan
    rw [if_neg hig]
    by_cases hiv : i = s.vccWireIndex
    · rw [if_pos hiv, if_neg hgw]
    · rw [if_neg hiv]
      have hr : s.vccWireIndex ∈ r := by
        rcases List.mem_cons.mp h with h | h
        · exact absurd h.symm hiv
        · exact h
      have hgr2 : s.gndWireIndex ∉ r := fun hm => hgr (List.mem_cons_of_mem i hm)
      simp only
      split
      · exact ih _ _ _ hr hgr2
      · split
        · exact ih _ _ _ hr hgr2
        · exact ih _ _ _ hr hgr2

/-- C4: for every group, if the group contains the gnd wire index the
resolved value is GROUNDED regardless of every other member's state,
pulled flag and of the iteration order; otherwise, if it contains the
vcc wire index, the resolved value is HIGH. -/
theorem C4_getWireValue_rails (s : Sim) (g : List Int) :
    (s.gndWireIndex ∈ g → getWireValue s g = GROUNDED)
    ∧ (s.gndWireIndex ∉ g → s.vccWireIndex ∈ g → getWireValue s g = HIGH) := by
  constructor
  · intro h
    exact gwvScan_gnd_mem s g g _ false false h h
  · intro hg hv
    exact gwvScan_vcc_mem s g hg g _ false false hv hg

/-- C4 witness: on simW, a group containing gnd resolves to GROUNDED and
a gnd-free group containing vcc resolves to HIGH. -/
theorem C4_getWireValue_rails_witness :
    getWireValue simW [3, 1, 0] = GROUNDED ∧ getWireValue simW [3, 0] = HIGH :=
  ⟨(C4_getWireValue_rails simW [3, 1, 0]).1 (by decide),
   (C4_getWireValue_rails simW [3, 0]).2 (by decide) (by decide)⟩

theorem cwsStep_eq (s : Sim) (a b : Nat) (i : Int) :
    cwsStep s (a, b) i =
      (if stateAt s i = FLOATING_LOW then a + numComp s i else a,
       if stateAt s i = FLOATING_HIGH then b + numComp s i else b) := by
  simp only [cwsStep]
  split_ifs with h1 h2
  · exact absurd (h2.symm.trans h1) (by decide)
  · rfl
  · rfl
  · rfl

theorem flSum_cons (s : Sim) (i : Int) (r : List Int) :
    flSum s (i :: r) =
      (if stateAt s i = FLOATING_LOW then numComp s i else 0) + flSum s r := by
  unfold flSum
  by_cases hfl : stateAt s i = FLOATING_LOW
  · rw [List.filter_cons_of_pos (by simp [hfl]), List.map_cons, List.sum_cons, if_pos hfl]
  · rw [List.filter_cons_of_neg (by simp [hfl]), if_neg hfl]
    omega

theorem fhSum_cons (s : Sim) (i : Int) (r : List Int) :
    fhSum s (i :: r) =
      (if stateAt s i = FLOATING_HIGH then numComp s i else 0) + fhSum s r := by
  unfold fhSum
  by_cases hfh : stateAt s i = FLOATING_HIGH
  · rw [List.filter_cons_of_pos (by simp [hfh]), List.map_cons, List.sum_cons, if_pos hfh]
  · rw [List.filter_cons_of_neg (by simp [hfh]), if_neg hfh]
    omega

theorem countWireSizes_foldl (s : Sim) :
    ∀ (g : List Int) (a b : Nat),
      g.foldl (cwsStep s) (a, b) = (a + flSum s g, b + fhSum s g) := by
  intro g
  induction g with
  | nil =>
    intro a b
    simp [flSum, fhSum]
  | cons i r ih =>
    intro a b
    rw [List.foldl_cons, cwsStep_eq, ih, flSum_cons, fhSum_cons]
    rw [Prod.mk.injEq]
    split_ifs with h1 h2 <;> constructor <;> omega

theorem countWireSizes_eq (s : Sim) (g : List Int) :
    countWireSizes s g = (flSum s g, fhSum s g) := by
  unfold countWireSizes
  rw [countWireSizes_foldl s g 0 0]
  simp

theorem gwvScan_no_rails (s : Sim) (whole : List Int) :
    ∀ (rest : List Int) (v : Nat) (fl fh : Bool),
      s.gndWireIndex ∉ rest → s.vccWireIndex ∉ rest →
      gwvScan s whole rest v fl fh =
        gwvFinal s whole (pulledValue s rest v) (fl || sawFL s rest) (fh || sawFH s rest) := by
  intro rest
  induction rest with
  | nil =>
    intro v fl fh _ _
    simp [gwvScan, pulledValue, sawFL, sawFH]
  | cons i r ih =>
    intro v fl fh hg hv
    have hig : ¬i = s.gndWireIndex := fun he => hg (he ▸ List.mem_cons_self i r)
    have hiv : ¬i = s.vccWireIndex := fun he => hv (he ▸ List.mem_cons_self i r)
    have hgr : s.gndWireIndex ∉ r := fun hm => hg (List.mem_cons_of_mem i hm)
    have hvr : s.vccWireIndex ∉ r := fun hm => hv (List.mem_cons_of_mem i hm)
    unfold gwvScan
    rw [if_neg hig, if_neg hiv]
    simp only
    have hpv : pulledValue s (i :: r) v =
        pulledValue s r
          (if pulledAt s i = PULLED_HIGH then PULLED_HIGH
           else if pulledAt s i = PULLED_LOW then PULLED_LOW else v) := by
      unfold pulledValue
      rw [List.foldl_cons]
    by_cases hfl : stateAt s i = FLOATING_LOW
    · have hfh : ¬stateAt s i = FLOATING_HIGH := by rw [hfl]; decide
      rw [if_pos hfl, ih _ _ _ hgr hvr, hpv]
      have h1 : (fl || sawFL s (i :: r)) = (true || sawFL s r) := by
        unfold sawFL
        simp [hfl]
      have h2 : (fh || sawFH s (i :: r)) = (fh || sawFH s r) := by
        unfold sawFH
        simp [hfh]
      rw [h1, h2]
    · by_cases hfh : stateAt s i = FLOATING_HIGH
      · rw [if_neg hfl, if_pos hfh, ih _ _ _ hgr hvr, hpv]
        have h1 : (fl || sawFL s (i :: r)) = (fl || sawFL s r) := by
          unfold sawFL
          simp [hfl]
        have h2 : (fh || sawFH s (i :: r)) = (true || sawFH s r) := by
          unfold sawFH
          simp [hfh]
        rw [h1, h2]
      · rw [if_neg hfl, if_neg hfh, ih _ _ _ hgr hvr, hpv]
        have h1 : (fl || sawFL s (i :: r)) = (fl || sawFL s r) := by
          unfold sawFL
          simp [hfl]
        have h2 : (fh || sawFH s (i :: r)) = (fh || sawFH s r) := by
          unfold sawFH
          simp [hfh]
        rw [h1, h2]

/-- C5: for a group without the rail wires, the scan's accumulated value
is kept unless it ends FLOATING_LOW or FLOATING_HIGH with both a
FLOATING_LOW and a FLOATING_HIGH member seen; exactly in that case the
capacitance tie-break runs, giving FLOATING_HIGH when the
FLOATING_HIGH-members' sum of |control| + |gate| transistor counts is at
least the FLOATING_LOW-members' sum and FLOATING_LOW otherwise. -/
theorem C5_getWireValue_tiebreak (s : Sim) (g : List Int)
    (hg : s.gndWireIndex ∉ g) (hv : s.vccWireIndex ∉ g) :
    getWireValue s g =
      (if pulledValue s g (stateAt s (g.headD 0)) = FLOATING_LOW ∨
          pulledValue s g (stateAt s (g.headD 0)) = FLOATING_HIGH then
         if sawFL s g ∧ sawFH s g then
           if flSum s g ≤ fhSum s g then FLOATING_HIGH else FLOATING_LOW
         else pulledValue s g (stateAt s (g.headD 0))
       else pulledValue s g (stateAt s (g.headD 0))) := by
  unfold getWireValue
  rw [gwvScan_no_rails s g g (stateAt s (g.headD 0)) false false hg hv]
  simp only [Bool.false_or]
  unfold gwvFinal
  by_cases h1 : pulledValue s g (stateAt s (g.headD 0)) = FLOATING_LOW ∨
      pulledValue s g (stateAt s (g.headD 0)) = FLOATING_HIGH
  · rw [if_pos h1, if_pos h1]
    by_cases h2 : sawFL s g = true ∧ sawFH s g = true
    · rw [if_pos h2, if_pos h2]
      by_cases h3 : fhSum s g < flSum s g
      · rw [if_pos (show (countWireSizes s g).2 < (countWireSizes s g).1 by
              rw [countWireSizes_eq]; exact h3),
            if_neg (by omega : ¬flSum s g ≤ fhSum s g)]
      · rw [if_neg (show ¬(countWireSizes s g).2 < (countWireSizes s g).1 by
              rw [countWireSizes_eq]; exact h3),
            if_pos (by omega : flSum s g ≤ fhSum s g)]
    · rw [if_neg h2, if_neg h2]
  · rw [if_neg h1, if_neg h1]

/-- The concrete netlist simW with wire 3 set FLOATING_LOW and wire 4 set
FLOATING_HIGH, used by the C5 witness. -/
def simW2 : Sim :=
  { simW with wireState := [HIGH, GROUNDED, 0, FLOATING_LOW, FLOATING_HIGH] }

/-- C5 witness: joining a FLOATING_LOW region (wire 3) and a
FLOATING_HIGH region (wire 4) on simW2 triggers the tie-break. -/
theorem C5_getWireValue_tiebreak_witness :
    getWireValue simW2 [3, 4] =
      (if pulledValue simW2 [3, 4] (stateAt simW2 (([3, 4] : List Int).headD 0)) = FLOATING_LOW ∨
          pulledValue simW2 [3, 4] (stateAt simW2 (([3, 4] : List Int).headD 0)) = FLOATING_HIGH then
         if sawFL simW2 [3, 4] ∧ sawFH simW2 [3, 4] then
           if flSum simW2 [3, 4] ≤ fhSum simW2 [3, 4] then FLOATING_HIGH else FLOATING_LOW
         else pulledValue simW2 [3, 4] (stateAt simW2 (([3, 4] : List Int).headD 0))
       else pulledValue simW2 [3, 4] (stateAt simW2 (([3, 4] : List Int).headD 0))) :=
  C5_getWireValue_tiebreak simW2 [3, 4] (by decide) (by decide)

/-! ## Claim C7 — frame property of recalc

FrameEq a b says that the two simulator states agree on everything the
recalc operations are specified not to mutate: the wire records (topology
and names), the transistor wire indices, the rail indices and the pulled
array.  Only wireState, transistorState and the work-list bookkeeping are
left out. -/

def FrameEq (a b : Sim) : Prop :=
  a.wires = b.wires ∧ a.transWires = b.transWires ∧
  a.gndWireIndex = b.gndWireIndex ∧ a.vccWireIndex = b.vccWireIndex ∧
  a.wirePulled = b.wirePulled

theorem frameEqRefl (a : Sim) : FrameEq a a := ⟨rfl, rfl, rfl, rfl, rfl⟩

theorem frameEqTrans {a b c : Sim} (h1 : FrameEq a b) (h2 : FrameEq b c) : FrameEq a c :=
  ⟨h1.1.trans h2.1, h1.2.1.trans h2.2.1, h1.2.2.1.trans h2.2.2.1,
   h1.2.2.2.1.trans h2.2.2.2.1, h1.2.2.2.2.trans h2.2.2.2.2⟩

theorem foldl_frameEq {α : Type} (f : Sim → α → Sim)
    (h : ∀ a x, FrameEq (f a x) a) :
    ∀ (l : List α) (s : Sim), FrameEq (l.foldl f s) s := by
  intro l
  induction l with
  | nil => intro s; exact frameEqRefl s
  | cons x xs ih =>
    intro s
    rw [List.foldl_cons]
    exact frameEqTrans (ih (f s x)) (h s x)

theorem frameEq_setState (s : Sim) (i : Int) (v : Nat) : FrameEq (setState s i v) s :=
  ⟨rfl, rfl, rfl, rfl, rfl⟩

theorem frameEq_setTransState (s : Sim) (t v : Nat) : FrameEq (setTransState s t v) s :=
  ⟨rfl, rfl, rfl, rfl, rfl⟩

theorem frameEq_enqueueNew (s : Sim) (w : Int) : FrameEq (enqueueNew s w) s := by
  unfold enqueueNew
  split
  · exact ⟨rfl, rfl, rfl, rfl, rfl⟩
  · exact frameEqRefl s

theorem frameEq_floatWire (s : Sim) (i : Int) : FrameEq (floatWire s i) s := by
  rw [floatWire_eq]
  split
  · exact frameEq_setState s i PULLED_HIGH
  · split
    · exact frameEq_setState s i PULLED_LOW
    · split
      · exact frameEq_setState s i FLOATING_LOW
      · split
        · exact frameEq_setState s i FLOATING_HIGH
        · exact frameEqRefl s

theorem frameEq_turnTransistorOn (s : Sim) (t : Nat) : FrameEq (turnTransistorOn s t) s := by
  unfold turnTransistorOn
  exact frameEqTrans (frameEqTrans (frameEq_enqueueNew _ _) (frameEq_enqueueNew _ _))
    (frameEq_setTransState s t GATE_HIGH)

theorem frameEq_turnTransistorOff (s : Sim) (t : Nat) : FrameEq (turnTransistorOff s t) s := by
  unfold turnTransistorOff
  exact frameEqTrans (frameEqTrans (frameEqTrans (frameEqTrans
    (frameEq_enqueueNew _ _) (frameEq_enqueueNew _ _))
    (frameEq_floatWire _ _)) (frameEq_floatWire _ _))
    (frameEq_setTransState s t GATE_LOW)

theorem frameEq_gateStep (newHigh : Prop) [Decidable newHigh] (a : Sim) (t : Nat) :
    FrameEq
      (let gateState := a.transistorState.getD t 0
       let a1 := if newHigh ∧ gateState = GATE_LOW then turnTransistorOn a t else a
       if ¬newHigh ∧ gateState = GATE_HIGH then turnTransistorOff a1 t else a1)
      a := by
  simp only
  split
  · split
    · exact frameEqTrans (frameEq_turnTransistorOff _ _) (frameEq_turnTransistorOn _ _)
    · exact frameEqTrans (frameEq_turnTransistorOff _ _) (frameEqRefl a)
  · split
    · exact frameEq_turnTransistorOn _ _
    · exact frameEqRefl a

theorem frameEq_doWireRecalc (fuel : Nat) (s : Sim) (i : Int) :
    FrameEq (doWireRecalc fuel s i) s := by
  unfold doWireRecalc
  split
  · exact frameEqRefl s
  · refine foldl_frameEq _ ?_ _ s
    intro a j
    split
    · exact frameEqRefl a
    · simp only
      split
      · exact frameEq_setState a j _
      · exact frameEqTrans (foldl_frameEq _ (fun b t => frameEq_gateStep _ b t) _ _)
          (frameEq_setState a j _)

theorem frameEq_onePass (fuel : Nat) (s : Sim) : FrameEq (onePass fuel s) s := by
  unfold onePass
  exact foldl_frameEq
    (fun a wireIndex =>
      let a1 := { a with newRecalcArray := pySet a.newRecalcArray wireIndex 0 }
      let a2 := doWireRecalc fuel a1 wireIndex
      { a2 with recalcArray := pySet a2.recalcArray wireIndex 0 })
    (fun a w =>
      frameEq_doWireRecalc fuel { a with newRecalcArray := pySet a.newRecalcArray w 0 } w)
    s.recalcOrderStack s

theorem frameEq_recalcSteps (fuel : Nat) :
    ∀ (n : Nat) (s : Sim), FrameEq (recalcSteps fuel n s).1 s := by
  intro n
  induction n with
  | zero => intro s; exact frameEqRefl s
  | succ n ih =>
    intro s
    unfold recalcSteps
    split
    · exact frameEqRefl s
    · exact frameEqTrans (ih (onePass fuel s)) (frameEq_onePass fuel s)

theorem frameEq_doRecalcIterations (fuel : Nat) (s : Sim) (hc : Nat) :
    FrameEq (doRecalcIterations fuel s hc).1 s := by
  simp only [doRecalcIterations]
  split
  · exact frameEq_recalcSteps fuel stepLimit s
  · split
    · exact frameEq_recalcSteps fuel stepLimit s
    · exact frameEq_recalcSteps fuel stepLimit s

theorem frameEq_recalcWireList (fuel : Nat) (s : Sim) (seeds : List Int) (hc : Nat) :
    FrameEq (recalcWireList fuel s seeds hc).1 s := by
  unfold recalcWireList
  exact frameEqTrans (frameEq_doRecalcIterations fuel _ hc)
    (foldl_frameEq
      (fun a wireIndex =>
        { a with recalcOrderStack := a.recalcOrderStack ++ [wireIndex],
                 recalcArray := pySet a.recalcArray wireIndex 1 })
      (fun a w => ⟨rfl, rfl, rfl, rfl, rfl⟩) seeds
      { s with recalcOrderStack := [], newRecalcOrderStack := [] })

/-- C7: no recalc call (recalc_wires with any seed list, or recalc_all)
changes any wire's pulled field, the graph topology (the wires' control
and gate transistor lists, the transistors' gate/side wire indices), the
wire names carried by the wire records, or the rail indices; only wire
states, transistor gate states and the work-list bookkeeping can change. -/
theorem C7_recalc_frame (fuel : Nat) (s : Sim) (seeds : List Int) (hc : Nat) :
    (recalcWireList fuel s seeds hc).1.wirePulled = s.wirePulled
    ∧ (recalcWireList fuel s seeds hc).1.wires = s.wires
    ∧ (recalcWireList fuel s seeds hc).1.transWires = s.transWires
    ∧ (recalcWireList fuel s seeds hc).1.gndWireIndex = s.gndWireIndex
    ∧ (recalcWireList fuel s seeds hc).1.vccWireIndex = s.vccWireIndex
    ∧ (recalcAllWires fuel s hc).1.wirePulled = s.wirePulled
    ∧ (recalcAllWires fuel s hc).1.wires = s.wires
    ∧ (recalcAllWires fuel s hc).1.transWires = s.transWires := by
  have h1 := frameEq_recalcWireList fuel s seeds hc
  have h2 := frameEq_recalcWireList fuel s
    (((List.range s.wires.length).filter (fun i => (s.wires.getD i none).isSome)).map
      (fun i => (i : Int))) hc
  exact ⟨h1.2.2.2.2, h1.1, h1.2.1, h1.2.2.1, h1.2.2.2.1, h2.2.2.2.2, h2.1, h2.2.1⟩

/-! ## Claim C9 — determinism of recalc -/

/-- C9: two executions of the same recalc call from identical simulator
states with identical seed lists and half-clock counts produce identical
post-states for every wire and identical gate states for every
transistor (the embedding resolves the source's set iteration order to
insertion order, which is also fixed in the source for a given run). -/
theorem C9_determinism (fuel : Nat) (s1 s2 : Sim) (seeds1 seeds2 : List Int)
    (hc1 hc2 : Nat) (hs : s1 = s2) (hseeds : seeds1 = seeds2) (hhc : hc1 = hc2) :
    (recalcWireList fuel s1 seeds1 hc1).1.wireState =
      (recalcWireList fuel s2 seeds2 hc2).1.wireState
    ∧ (recalcWireList fuel s1 seeds1 hc1).1.transistorState =
      (recalcWireList fuel s2 seeds2 hc2).1.transistorState
    ∧ (recalcWireList fuel s1 seeds1 hc1).2 = (recalcWireList fuel s2 seeds2 hc2).2 := by
  subst hs
  subst hseeds
  subst hhc
  exact ⟨rfl, rfl, rfl⟩

/-- C9 witness: the determinism theorem applied to the concrete netlist
simW with seed wire 2. -/
theorem C9_determinism_witness :
    (recalcWireList 20 simW simW.recalcOrderStack 0).1.wireState =
      (recalcWireList 20 simW simW.recalcOrderStack 0).1.wireState
    ∧ (recalcWireList 20 simW simW.recalcOrderStack 0).1.transistorState =
      (recalcWireList 20 simW simW.recalcOrderStack 0).1.transistorState
    ∧ (recalcWireList 20 simW simW.recalcOrderStack 0).2 =
      (recalcWireList 20 simW simW.recalcOrderStack 0).2 :=
  C9_determinism 20 simW simW simW.recalcOrderStack simW.recalcOrderStack 0 0 rfl rfl rfl

/-! ## Claim C3 — DidNotConverge is raised iff the step limit is reached
and halfClkCount > 0 -/

/-- k-fold iteration of one work-list pass. -/
def passIterate (fuel : Nat) : Nat → Sim → Sim
  | 0, s => s
  | k + 1, s => passIterate fuel k (onePass fuel s)

/-- The iteration step limit is reached: the work-list is non-empty at
the start of each of the stepLimit passes. -/
def hitsLimit (fuel : Nat) (s : Sim) : Prop :=
  ∀ k < stepLimit, (passIterate fuel k s).recalcOrderStack ≠ []

theorem recalcSteps_snd_iff (fuel : Nat) :
    ∀ (n : Nat) (s : Sim),
      (recalcSteps fuel n s).2 = true ↔
        ∀ k < n, (passIterate fuel k s).recalcOrderStack ≠ [] := by
  intro n
  induction n with
  | zero =>
    intro s
    simp [recalcSteps]
  | succ n ih =>
    intro s
    unfold recalcSteps
    by_cases h : s.recalcOrderStack = []
    · rw [if_pos h]
      constructor
      · intro hf
        exact Bool.noConfusion hf
      · intro hall
        exact absurd h (hall 0 (Nat.succ_pos n))
    · rw [if_neg h]
      rw [ih (onePass fuel s)]
      constructor
      · intro hall k hk
        cases k with
        | zero => exact h
        | succ k => exact hall k (Nat.lt_of_succ_lt_succ hk)
      · intro hall k hk
        exact hall (k + 1) (Nat.succ_lt_succ hk)

/-- C3: the DidNotConverge error (the Bool component of
doRecalcIterations) is raised exactly when the step limit is reached and
halfClkCount > 0; when the limit is reached with halfClkCount = 0 nothing
is raised, and in every case the partially settled wire and transistor
states of the iteration loop are kept. -/
theorem C3_didNotConverge_iff (fuel : Nat) (s : Sim) (hc : Nat) :
    ((doRecalcIterations fuel s hc).2 = true ↔ (hitsLimit fuel s ∧ 0 < hc))
    ∧ (doRecalcIterations fuel s hc).1.wireState =
        (recalcSteps fuel stepLimit s).1.wireState
    ∧ (doRecalcIterations fuel s hc).1.transistorState =
        (recalcSteps fuel stepLimit s).1.transistorState := by
  have hiff := recalcSteps_snd_iff fuel stepLimit s
  simp only [doRecalcIterations]
  by_cases h : (recalcSteps fuel stepLimit s).2 = true ∧ 0 < hc
  · rw [if_pos h]
    refine ⟨?_, rfl, rfl⟩
    simp only [true_iff]
    exact ⟨hiff.mp h.1, h.2⟩
  · rw [if_neg h]
    have hraise : ¬(hitsLimit fuel s ∧ 0 < hc) := by
      intro hcontra
      exact h ⟨hiff.mpr hcontra.1, hcontra.2⟩
    split
    · exact ⟨by simp [hraise], rfl, rfl⟩
    · exact ⟨by simp [hraise], rfl, rfl⟩

/-! ## Claim C1 — rail stability

The counterexample: a pass transistor whose side1 is the VCC wire.
Turning it off floats the rail: floatWire(vcc) with pulled = 0 and state
HIGH rewrites the rail state to FLOATING_HIGH.  Transistors 1-3 are
rail-free padding (the source sizes the work-list marker arrays by
transistor count, so a runnable netlist needs at least as many
transistors as wires). -/

def simC1 : Sim where
  wires := [some ⟨"VCC", [0], []⟩, some ⟨"VSS", [1, 2, 3], [1, 2, 3]⟩,
            some ⟨"A", [], [0]⟩, some ⟨"D", [0], []⟩]
  transWires := [⟨2, 0, 3⟩, ⟨1, 1, 1⟩, ⟨1, 1, 1⟩, ⟨1, 1, 1⟩]
  gndWireIndex := 1
  vccWireIndex := 0
  wireState := [HIGH, GROUNDED, 0, 0]
  wirePulled := [0, 0, 0, 0]
  transistorState := [0, 0, 0, 0]
  recalcArray := [0, 0, 0, 0]
  newRecalcArray := [0, 0, 0, 0]
  recalcOrderStack := []
  newRecalcOrderStack := []

/-- C1 counterexample: on the netlist simC1 (transistor 0 has the VCC
wire as side1), pinning input wire 2 high, recalcing, pinning it low and
recalcing again leaves the VCC wire in state FLOATING_HIGH, not HIGH:
the floatWire call of turnTransistorOff overwrites the rail state, so
the claim fails as stated. -/
theorem C1_counterexample :
    stateAt
        (recalcWireList 20
          (setLow (recalcWireList 20 (setHigh simC1 2) [2] 0).1 2) [2] 0).1
        simC1.vccWireIndex = FLOATING_HIGH
    ∧ FLOATING_HIGH ≠ HIGH := by
  exact ⟨by decide, by decide⟩

/-- Write-safety: a pySet-style state write at index j (j ≥ -1, j
different from the read index r, r in range and not the last slot, which
a write at -1 would wrap to) does not change the state read at r. -/
theorem stateAt_setState_other (s : Sim) {j r : Int}
    (hr0 : 0 ≤ r) (hr1 : r < (s.wireState.length : Int))
    (hrl : r ≠ (s.wireState.length : Int) - 1)
    (hj : -1 ≤ j) (hne : j ≠ r) (v : Nat) :
    stateAt (setState s j v) r = stateAt s r := by
  unfold stateAt setState
  simp only
  apply pyGetD_pySet_other
  by_cases hjn : j < (s.wireState.length : Int)
  · by_cases hj0 : 0 ≤ j
    · left
      rw [pyIdx_inRange hr0 hr1, pyIdx_inRange hj0 hjn]
      simp only [ne_eq, Option.some.injEq]
      omega
    · left
      have hj1 : j = -1 := by omega
      subst hj1
      rw [pyIdx_inRange hr0 hr1]
      have hn : 1 ≤ s.wireState.length := by omega
      unfold pyIdx
      rw [if_neg (by omega), if_pos (by constructor <;> omega)]
      simp only [ne_eq, Option.some.injEq]
      omega
  · right
    unfold pyIdx
    rw [if_neg (by omega), if_neg (by omega)]

/-! ### Machinery for the amended rail-stability statement -/

/-- Pres a b: a agrees with b on the static frame and on the wire-state
array length (every recalc operation preserves both). -/
def Pres (a b : Sim) : Prop :=
  FrameEq a b ∧ a.wireState.length = b.wireState.length

theorem presRefl (a : Sim) : Pres a a := ⟨frameEqRefl a, rfl⟩

theorem presTrans {a b c : Sim} (h1 : Pres a b) (h2 : Pres b c) : Pres a c :=
  ⟨frameEqTrans h1.1 h2.1, h1.2.trans h2.2⟩

theorem pres_setState (s : Sim) (i : Int) (v : Nat) : Pres (setState s i v) s :=
  ⟨frameEq_setState s i v, pySet_length _ _ _⟩

theorem pres_setTransState (s : Sim) (t v : Nat) : Pres (setTransState s t v) s :=
  ⟨frameEq_setTransState s t v, rfl⟩

theorem wireState_enqueueNew (s : Sim) (w : Int) :
    (enqueueNew s w).wireState = s.wireState := by
  unfold enqueueNew
  split <;> rfl

theorem pres_enqueueNew (s : Sim) (w : Int) : Pres (enqueueNew s w) s :=
  ⟨frameEq_enqueueNew s w, by rw [wireState_enqueueNew]⟩

theorem pres_floatWire (s : Sim) (c : Int) : Pres (floatWire s c) s := by
  rw [floatWire_eq]
  split_ifs <;> first | exact pres_setState s c _ | exact presRefl s

theorem stateAt_congr {a b : Sim} (h : a.wireState = b.wireState) (r : Int) :
    stateAt a r = stateAt b r := by
  unfold stateAt pyGetD
  rw [h]

/-- RailSafe: the rail indices are in range, neither is the last slot
(which a write at python index -1 would wrap to), and no transistor has a
rail wire as one of its channel sides. -/
def RailSafe (s : Sim) : Prop :=
  0 ≤ s.vccWireIndex ∧ s.vccWireIndex < (s.wireState.length : Int) ∧
  0 ≤ s.gndWireIndex ∧ s.gndWireIndex < (s.wireState.length : Int) ∧
  s.vccWireIndex ≠ (s.wireState.length : Int) - 1 ∧
  s.gndWireIndex ≠ (s.wireState.length : Int) - 1 ∧
  ∀ tr ∈ s.transWires,
    0 ≤ tr.s1 ∧ tr.s1 ≠ s.vccWireIndex ∧ tr.s1 ≠ s.gndWireIndex ∧
    0 ≤ tr.s2 ∧ tr.s2 ≠ s.vccWireIndex ∧ tr.s2 ≠ s.gndWireIndex

instance railSafeDecidable (s : Sim) : Decidable (RailSafe s) := by
  unfold RailSafe
  infer_instance

theorem railSafe_of_pres {a b : Sim} (hp : Pres a b) (hr : RailSafe b) : RailSafe a := by
  obtain ⟨⟨hw, ht, hg, hv, hpu⟩, hl⟩ := hp
  unfold RailSafe
  rw [ht, hg, hv, hl]
  exact hr

theorem transAt_side_facts (s : Sim) (hr : RailSafe s) (t : Nat) :
    (-1 ≤ (transAt s t).s1 ∧ (transAt s t).s1 ≠ s.vccWireIndex ∧
      (transAt s t).s1 ≠ s.gndWireIndex) ∧
    (-1 ≤ (transAt s t).s2 ∧ (transAt s t).s2 ≠ s.vccWireIndex ∧
      (transAt s t).s2 ≠ s.gndWireIndex) := by
  unfold transAt
  by_cases ht : t < s.transWires.length
  · rw [List.getD_eq_getElem s.transWires _ ht]
    have hmem := List.getElem_mem (l := s.transWires) (n := t) ht
    have h := hr.2.2.2.2.2.2 _ hmem
    exact ⟨⟨by omega, h.2.1, h.2.2.1⟩, ⟨by omega, h.2.2.2.2.1, h.2.2.2.2.2⟩⟩
  · rw [List.getD_eq_default s.transWires _ (Nat.le_of_not_lt ht)]
    have hv : 0 ≤ s.vccWireIndex := hr.1
    have hg : 0 ≤ s.gndWireIndex := hr.2.2.1
    have e1 : (({ gate := -1, s1 := -1, s2 := -1 } : TransRec)).s1 = -1 := rfl
    have e2 : (({ gate := -1, s1 := -1, s2 := -1 } : TransRec)).s2 = -1 := rfl
    rw [e1, e2]
    exact ⟨⟨le_refl _, by omega, by omega⟩, ⟨le_refl _, by omega, by omega⟩⟩

/-- Every wire index that the group construction can produce besides the
seed: the -1 sentinel or a channel side of some transistor. -/
def SideOrNeg (s : Sim) (j : Int) : Prop :=
  j = -1 ∨ ∃ tr ∈ s.transWires, j = tr.s1 ∨ j = tr.s2

theorem sideOrNeg_facts {s : Sim} (hr : RailSafe s) {j : Int} (h : SideOrNeg s j) :
    -1 ≤ j ∧ j ≠ s.vccWireIndex ∧ j ≠ s.gndWireIndex := by
  rcases h with h | ⟨tr, hmem, h⟩
  · subst h
    have hv : 0 ≤ s.vccWireIndex := hr.1
    have hg : 0 ≤ s.gndWireIndex := hr.2.2.1
    exact ⟨le_refl _, by omega, by omega⟩
  · have hf := hr.2.2.2.2.2.2 _ hmem
    rcases h with h | h <;> subst h
    · exact ⟨by have := hf.1; omega, hf.2.1, hf.2.2.1⟩
    · exact ⟨by have := hf.2.2.2.1; omega, hf.2.2.2.2.1, hf.2.2.2.2.2⟩

theorem transAt_sideOrNeg (s : Sim) (t : Nat) :
    SideOrNeg s (transAt s t).s1 ∧ SideOrNeg s (transAt s t).s2 := by
  unfold transAt
  by_cases ht : t < s.transWires.length
  · rw [List.getD_eq_getElem s.transWires _ ht]
    have hmem := List.getElem_mem (l := s.transWires) (n := t) ht
    exact ⟨Or.inr ⟨_, hmem, Or.inl rfl⟩, Or.inr ⟨_, hmem, Or.inr rfl⟩⟩
  · rw [List.getD_eq_default s.transWires _ (Nat.le_of_not_lt ht)]
    exact ⟨Or.inl rfl, Or.inl rfl⟩

theorem ginsert_mem {g : List Int} {i j : Int} (h : j ∈ ginsert g i) : j ∈ g ∨ j = i := by
  unfold ginsert at h
  split at h
  · exact Or.inl h
  · rcases List.mem_append.mp h with h | h
    · exact Or.inl h
    · exact Or.inr (List.mem_singleton.mp h)

theorem foldl_mem_or {α : Type} (P : Int → Prop) (f : List Int → α → List Int)
    (h : ∀ acc x j, j ∈ f acc x → j ∈ acc ∨ P j) :
    ∀ (l : List α) (acc : List Int) (j : Int), j ∈ l.foldl f acc → j ∈ acc ∨ P j := by
  intro l
  induction l with
  | nil => intro acc j hj; exact Or.inl hj
  | cons x xs ih =>
    intro acc j hj
    rw [List.foldl_cons] at hj
    rcases ih (f acc x) j hj with hj | hj
    · exact h acc x j hj
    · exact Or.inr hj

/-- The one-step unfolding of the group construction, written with the
named addWireTransistor step. -/
theorem addWireToGroup_succ_eq (fuel : Nat) (s : Sim) (i : Int) (g : List Int) :
    addWireToGroup (fuel + 1) s i g =
      (if i = s.gndWireIndex ∨ i = s.vccWireIndex then ginsert g i
       else
         match wireAt s i with
         | none => ginsert g i
         | some w => w.ctInds.foldl (fun acc t => addWireTransistor fuel s i t acc)
             (ginsert g i)) :=
  rfl

theorem addWireToGroup_mem (s : Sim) :
    ∀ (fuel : Nat) (i : Int) (g : List Int) (j : Int),
      j ∈ addWireToGroup fuel s i g → j ∈ g ∨ j = i ∨ SideOrNeg s j := by
  intro fuel
  induction fuel with
  | zero =>
    intro i g j h
    exact Or.inl h
  | succ fuel ih =>
    have hstep : ∀ (acc : List Int) (t : Nat) (i j : Int),
        j ∈ addWireTransistor fuel s i t acc → j ∈ acc ∨ SideOrNeg s j := by
      intro acc t i j hj
      unfold addWireTransistor at hj
      split at hj
      · exact Or.inl hj
      · simp only at hj
        generalize hgen : (if (transAt s t).s2 = i then (transAt s t).s1
            else if (transAt s t).s1 = i then (transAt s t).s2 else -1) = other at hj
        have hother : SideOrNeg s other := by
          rw [← hgen]
          split_ifs
          · exact (transAt_sideOrNeg s t).1
          · exact (transAt_sideOrNeg s t).2
          · exact Or.inl rfl
        split at hj
        · rcases ginsert_mem hj with hj | hj
          · exact Or.inl hj
          · exact Or.inr (hj ▸ hother)
        · split at hj
          · exact Or.inl hj
          · rcases ih other acc j hj with hj | hj | hj
            · exact Or.inl hj
            · exact Or.inr (hj ▸ hother)
            · exact Or.inr hj
    intro i g j h
    rw [addWireToGroup_succ_eq] at h
    have hg1 : ∀ j, j ∈ ginsert g i → j ∈ g ∨ j = i ∨ SideOrNeg s j := by
      intro j hj
      rcases ginsert_mem hj with hj | hj
      · exact Or.inl hj
      · exact Or.inr (Or.inl hj)
    split at h
    · exact hg1 j h
    · split at h
      · exact hg1 j h
      · rcases foldl_mem_or (SideOrNeg s) _ (fun acc t j hj => hstep acc t i j hj) _ _ j h with
          hj | hj
        · exact hg1 j hj
        · exact Or.inr (Or.inr hj)

/-- The invariant carried through the recalc loop, relative to the
starting state s0: the static frame and state-array length are those of
s0, the states read at s0's rail indices are unchanged, and every queued
wire index is at least -1 (so a state write through it can only wrap to
the last slot, which RailSafe excludes from being a rail). -/
def TopInv (s0 a : Sim) : Prop :=
  Pres a s0 ∧
  stateAt a s0.vccWireIndex = stateAt s0 s0.vccWireIndex ∧
  stateAt a s0.gndWireIndex = stateAt s0 s0.gndWireIndex ∧
  (∀ j ∈ a.recalcOrderStack, -1 ≤ j) ∧
  (∀ j ∈ a.newRecalcOrderStack, -1 ≤ j)

theorem foldl_pred {α : Type} (Inv : Sim → Prop) (Q : α → Prop) (f : Sim → α → Sim)
    (hstep : ∀ b x, Inv b → Q x → Inv (f b x)) :
    ∀ (l : List α) (b : Sim), Inv b → (∀ x ∈ l, Q x) → Inv (l.foldl f b) := by
  intro l
  induction l with
  | nil => intro b hb _; exact hb
  | cons x xs ih =>
    intro b hb hq
    rw [List.foldl_cons]
    exact ih (f b x) (hstep b x hb (hq x (List.mem_cons_self x xs)))
      (fun y hy => hq y (List.mem_cons_of_mem x hy))

theorem topInv_setState {s0 a : Sim} (hr0 : RailSafe s0) (h : TopInv s0 a)
    {j : Int} (hj : -1 ≤ j) (hjv : j ≠ s0.vccWireIndex) (hjg : j ≠ s0.gndWireIndex)
    (v : Nat) : TopInv s0 (setState a j v) := by
  obtain ⟨hp, hsv, hsg, hst, hnst⟩ := h
  have hlen : a.wireState.length = s0.wireState.length := hp.2
  refine ⟨presTrans (pres_setState a j v) hp, ?_, ?_, hst, hnst⟩
  · rw [stateAt_setState_other a hr0.1 (by rw [hlen]; exact hr0.2.1)
      (by rw [hlen]; exact hr0.2.2.2.2.1) hj hjv v]
    exact hsv
  · rw [stateAt_setState_other a hr0.2.2.1 (by rw [hlen]; exact hr0.2.2.2.1)
      (by rw [hlen]; exact hr0.2.2.2.2.2.1) hj hjg v]
    exact hsg

theorem topInv_setTransState {s0 a : Sim} (h : TopInv s0 a) (t v : Nat) :
    TopInv s0 (setTransState a t v) :=
  ⟨presTrans (pres_setTransState a t v) h.1, h.2.1, h.2.2.1, h.2.2.2.1, h.2.2.2.2⟩

theorem topInv_enqueueNew {s0 a : Sim} (h : TopInv s0 a) {w : Int} (hw : -1 ≤ w) :
    TopInv s0 (enqueueNew a w) := by
  obtain ⟨hp, hsv, hsg, hst, hnst⟩ := h
  refine ⟨presTrans (pres_enqueueNew a w) hp, ?_, ?_, ?_, ?_⟩
  · rw [stateAt_congr (wireState_enqueueNew a w)]
    exact hsv
  · rw [stateAt_congr (wireState_enqueueNew a w)]
    exact hsg
  · unfold enqueueNew
    split <;> exact hst
  · unfold enqueueNew
    split
    · intro j hj
      rcases List.mem_append.mp hj with hj | hj
      · exact hnst j hj
      · rw [List.mem_singleton.mp hj]
        exact hw
    · exact hnst

theorem topInv_floatWire {s0 a : Sim} (hr0 : RailSafe s0) (h : TopInv s0 a)
    {c : Int} (hc : -1 ≤ c) (hcv : c ≠ s0.vccWireIndex) (hcg : c ≠ s0.gndWireIndex) :
    TopInv s0 (floatWire a c) := by
  rw [floatWire_eq]
  split_ifs <;> first | exact topInv_setState hr0 h hc hcv hcg _ | exact h

theorem transWires_enqueueNew (s : Sim) (w : Int) :
    (enqueueNew s w).transWires = s.transWires := by
  unfold enqueueNew
  split <;> rfl

theorem transAt_enqueueNew (s : Sim) (w : Int) (t : Nat) :
    transAt (enqueueNew s w) t = transAt s t := by
  unfold transAt
  rw [transWires_enqueueNew]

theorem topInv_turnOn {s0 a : Sim} (hr0 : RailSafe s0) (h : TopInv s0 a) (t : Nat) :
    TopInv s0 (turnTransistorOn a t) := by
  unfold turnTransistorOn
  simp only
  have h1 : TopInv s0 (setTransState a t GATE_HIGH) := topInv_setTransState h t GATE_HIGH
  have hf := transAt_side_facts _ (railSafe_of_pres h1.1 hr0) t
  have h2 := topInv_enqueueNew h1 hf.1.1
  rw [transAt_enqueueNew]
  exact topInv_enqueueNew h2 hf.2.1

theorem topInv_turnOff {s0 a : Sim} (hr0 : RailSafe s0) (h : TopInv s0 a) (t : Nat) :
    TopInv s0 (turnTransistorOff a t) := by
  unfold turnTransistorOff
  simp only
  have h1 : TopInv s0 (setTransState a t GATE_LOW) := topInv_setTransState h t GATE_LOW
  have hf := transAt_side_facts _ (railSafe_of_pres h1.1 hr0) t
  have hveq : (setTransState a t GATE_LOW).vccWireIndex = s0.vccWireIndex :=
    h1.1.1.2.2.2.1
  have hgeq : (setTransState a t GATE_LOW).gndWireIndex = s0.gndWireIndex :=
    h1.1.1.2.2.1
  rw [hveq, hgeq] at hf
  have h2 := topInv_floatWire hr0 h1 hf.1.1 hf.1.2.1 hf.1.2.2
  have h3 := topInv_floatWire hr0 h2 hf.2.1 hf.2.2.1 hf.2.2.2
  have h4 := topInv_enqueueNew h3 hf.1.1
  exact topInv_enqueueNew h4 hf.2.1

theorem topInv_gateStep {s0 a : Sim} (hr0 : RailSafe s0) (h : TopInv s0 a)
    (newHigh : Prop) [Decidable newHigh] (t : Nat) :
    TopInv s0
      (let gateState := a.transistorState.getD t 0
       let a1 := if newHigh ∧ gateState = GATE_LOW then turnTransistorOn a t else a
       if ¬newHigh ∧ gateState = GATE_HIGH then turnTransistorOff a1 t else a1) := by
  simp only
  split
  · split
    · exact topInv_turnOff hr0 (topInv_turnOn hr0 h t) t
    · exact topInv_turnOff hr0 h t
  · split
    · exact topInv_turnOn hr0 h t
    · exact h

theorem topInv_doWireRecalc (fuel : Nat) {s0 a : Sim} (hr0 : RailSafe s0)
    (h : TopInv s0 a) {i : Int} (hi : -1 ≤ i) :
    TopInv s0 (doWireRecalc fuel a i) := by
  unfold doWireRecalc
  split
  · exact h
  · simp only
    have hra : RailSafe a := railSafe_of_pres h.1 hr0
    have haveq : a.vccWireIndex = s0.vccWireIndex := h.1.1.2.2.2.1
    have hageq : a.gndWireIndex = s0.gndWireIndex := h.1.1.2.2.1
    have hq : ∀ j ∈ addWireToGroup fuel a i [], -1 ≤ j := by
      intro j hj
      rcases addWireToGroup_mem a fuel i [] j hj with hj | hj | hj
      · exact absurd hj (List.not_mem_nil j)
      · rw [hj]
        exact hi
      · exact (sideOrNeg_facts hra hj).1
    refine foldl_pred (TopInv s0) (fun j => -1 ≤ j) _ ?_ _ a h hq
    intro b j hb hj
    split
    · exact hb
    · rename_i hne
      have hjg : j ≠ s0.gndWireIndex := by
        rw [← hageq]
        exact fun hcon => hne (Or.inl hcon)
      have hjv : j ≠ s0.vccWireIndex := by
        rw [← haveq]
        exact fun hcon => hne (Or.inr hcon)
      have hb1 : TopInv s0 (setState b j (getWireValue a (addWireToGroup fuel a i []))) :=
        topInv_setState hr0 hb hj hjv hjg _
      split
      · exact hb1
      · exact foldl_pred (TopInv s0) (fun _ => True) _
          (fun b2 t hb2 _ => topInv_gateStep hr0 hb2 _ t) _ _ hb1 (fun _ _ => trivial)

theorem topInv_onePass (fuel : Nat) {s0 a : Sim} (hr0 : RailSafe s0) (h : TopInv s0 a) :
    TopInv s0 (onePass fuel a) := by
  unfold onePass
  simp only
  have hfold : TopInv s0
      (a.recalcOrderStack.foldl
        (fun b wireIndex =>
          let b1 := { b with newRecalcArray := pySet b.newRecalcArray wireIndex 0 }
          let b2 := doWireRecalc fuel b1 wireIndex
          { b2 with recalcArray := pySet b2.recalcArray wireIndex 0 })
        a) := by
    refine foldl_pred (TopInv s0) (fun j => -1 ≤ j) _ ?_ _ a h h.2.2.2.1
    intro b w hb hw
    simp only
    have hb1 : TopInv s0 { b with newRecalcArray := pySet b.newRecalcArray w 0 } :=
      ⟨presTrans ⟨⟨rfl, rfl, rfl, rfl, rfl⟩, rfl⟩ hb.1, hb.2.1, hb.2.2.1,
        hb.2.2.2.1, hb.2.2.2.2⟩
    have hb2 := topInv_doWireRecalc fuel hr0 hb1 hw
    exact ⟨presTrans ⟨⟨rfl, rfl, rfl, rfl, rfl⟩, rfl⟩ hb2.1, hb2.2.1, hb2.2.2.1,
      hb2.2.2.2.1, hb2.2.2.2.2⟩
  obtain ⟨hp, hsv, hsg, hst, hnst⟩ := hfold
  exact ⟨presTrans ⟨⟨rfl, rfl, rfl, rfl, rfl⟩, rfl⟩ hp, hsv, hsg, hnst,
    fun j hj => absurd hj (List.not_mem_nil j)⟩

theorem topInv_recalcSteps (fuel : Nat) {s0 : Sim} (hr0 : RailSafe s0) :
    ∀ (n : Nat) (a : Sim), TopInv s0 a → TopInv s0 (recalcSteps fuel n a).1 := by
  intro n
  induction n with
  | zero => intro a h; exact h
  | succ n ih =>
    intro a h
    unfold recalcSteps
    split
    · exact h
    · exact ih (onePass fuel a) (topInv_onePass fuel hr0 h)

theorem topInv_doRecalcIterations (fuel : Nat) {s0 a : Sim} (hr0 : RailSafe s0)
    (h : TopInv s0 a) (hc : Nat) :
    TopInv s0 (doRecalcIterations fuel a hc).1 := by
  simp only [doRecalcIterations]
  split
  · exact topInv_recalcSteps fuel hr0 stepLimit a h
  · split
    · have h2 := topInv_recalcSteps fuel hr0 stepLimit a h
      exact ⟨presTrans ⟨⟨rfl, rfl, rfl, rfl, rfl⟩, rfl⟩ h2.1, h2.2.1, h2.2.2.1,
        h2.2.2.2.1, h2.2.2.2.2⟩
    · exact topInv_recalcSteps fuel hr0 stepLimit a h

/-- C1 amended: on a netlist in which no transistor has a rail wire as a
channel side (and the rail indices are in range, away from the python
index -1 wrap target), any recalc call with non-negative seed indices
leaves the VCC wire HIGH and the VSS wire GROUNDED.  The doWireRecalc
write-back skips the rails by index; the only rail writes in the source
are the floatWire calls of turnTransistorOff, which this side condition
rules out (and which the counterexample shows are real otherwise). -/
theorem C1_rail_stability_amended (fuel : Nat) (s : Sim) (seeds : List Int) (hc : Nat)
    (hrs : RailSafe s) (hseeds : ∀ j ∈ seeds, 0 ≤ j)
    (hvcc : stateAt s s.vccWireIndex = HIGH)
    (hgnd : stateAt s s.gndWireIndex = GROUNDED) :
    stateAt (recalcWireList fuel s seeds hc).1 s.vccWireIndex = HIGH
    ∧ stateAt (recalcWireList fuel s seeds hc).1 s.gndWireIndex = GROUNDED := by
  unfold recalcWireList
  simp only
  have h1 : TopInv s { s with recalcOrderStack := [], newRecalcOrderStack := [] } :=
    ⟨⟨⟨rfl, rfl, rfl, rfl, rfl⟩, rfl⟩, rfl, rfl,
      fun j hj => absurd hj (List.not_mem_nil j),
      fun j hj => absurd hj (List.not_mem_nil j)⟩
  have h2 : TopInv s
      (seeds.foldl
        (fun b wireIndex =>
          { b with recalcOrderStack := b.recalcOrderStack ++ [wireIndex],
                   recalcArray := pySet b.recalcArray wireIndex 1 })
        { s with recalcOrderStack := [], newRecalcOrderStack := [] }) := by
    refine foldl_pred (TopInv s) (fun j => 0 ≤ j) _ ?_ seeds _ h1 hseeds
    intro b j hb hj
    refine ⟨presTrans ⟨⟨rfl, rfl, rfl, rfl, rfl⟩, rfl⟩ hb.1, hb.2.1, hb.2.2.1, ?_,
      hb.2.2.2.2⟩
    intro x hx
    rcases List.mem_append.mp hx with hx | hx
    · exact hb.2.2.2.1 x hx
    · rw [List.mem_singleton.mp hx]
      omega
  have h3 := topInv_doRecalcIterations fuel hrs h2 hc
  exact ⟨h3.2.1.trans hvcc, h3.2.2.1.trans hgnd⟩

/-- A rail-side-free variant of the witness netlist: transistor 0 has
channel sides 3 and 4; padding transistors 1-4 also have sides 3 and 4. -/
def simY : Sim where
  wires := [some ⟨"VCC", [], []⟩, some ⟨"VSS", [], [1, 2, 3, 4]⟩,
            some ⟨"A", [], [0]⟩, some ⟨"D", [0, 1, 2, 3, 4], []⟩,
            some ⟨"E", [0, 1, 2, 3, 4], []⟩]
  transWires := [⟨2, 3, 4⟩, ⟨1, 3, 4⟩, ⟨1, 3, 4⟩, ⟨1, 3, 4⟩, ⟨1, 3, 4⟩]
  gndWireIndex := 1
  vccWireIndex := 0
  wireState := [HIGH, GROUNDED, 0, 0, 0]
  wirePulled := [0, 0, 0, 0, 0]
  transistorState := [0, 0, 0, 0, 0]
  recalcArray := [0, 0, 0, 0, 0]
  newRecalcArray := [0, 0, 0, 0, 0]
  recalcOrderStack := []
  newRecalcOrderStack := []

/-- C1 amended witness: the amended rail stability applied to the
concrete rail-side-free netlist simY with seed wire 2. -/
theorem C1_rail_stability_amended_witness :
    stateAt (recalcWireList 20 simY [2] 0).1 simY.vccWireIndex = HIGH
    ∧ stateAt (recalcWireList 20 simY [2] 0).1 simY.gndWireIndex = GROUNDED :=
  C1_rail_stability_amended 20 simY [2] 0 (by decide) (by decide) (by decide) (by decide)

/-! ## The loader (CircuitSimulator.loadCircuit)

The persisted record's fields become a structure; the pickle reading and
the os.path check are outside the model.  Python assert failures are the
MalformedNetlist error kind (.malformed); IndexError / AttributeError
from running off a stream or dereferencing a null record are the distinct
.indexError kind.  Python set accumulation is modelled as
order-preserving deduplicating insertion. -/

structure CktInput where
  numWires : Nat
  nextCtrl : Nat
  noWire : Nat
  wirePulled : List Nat
  wireCtrlFets : List Nat
  wireGates : List Nat
  wireNames : List String
  numFets : Nat
  fetSide1 : List Nat
  fetSide2 : List Nat
  fetGate : List Nat
  deriving Repr, DecidableEq

inductive LoadErr where
  | malformed
  | indexError
  deriving Repr, DecidableEq

/-- The loader's Wire record: name, control-fet set, gate set, pulled,
and state (initialised to pulled by Wire.__init__). -/
structure LWire where
  name : String
  ctInds : List Nat
  gateInds : List Nat
  pulled : Nat
  state : Nat
  deriving Repr, DecidableEq

/-- The loader's NmosFet record. -/
structure LFet where
  side1 : Nat
  side2 : Nat
  gate : Nat
  gateState : Nat
  deriving Repr, DecidableEq

structure Loaded where
  wireList : List (Option LWire)
  wireNames : List (String × Nat)
  transistorList : List (Option LFet)
  vccWireIndex : Nat
  gndWireIndex : Nat
  deriving Repr, DecidableEq

def dedupInsert (l : List Nat) (x : Nat) : List Nat :=
  if x ∈ l then l else l ++ [x]

def readIds : Nat → List Nat → Option (List Nat × List Nat)
  | 0, s => some ([], s)
  | _ + 1, [] => none
  | n + 1, v :: rest =>
    match readIds n rest with
    | none => none
    | some (ids, r) => some (v :: ids, r)

/-- One [count, ids..., NEXT_CTRL] segment: reading past the end of the
stream is an IndexError; a sentinel other than nextCtrl is the assert. -/
def parseSeg (nc : Nat) (s : List Nat) : Except LoadErr (List Nat × List Nat) :=
  match s with
  | [] => .error .indexError
  | c :: rest =>
    match readIds c rest with
    | none => .error .indexError
    | some (ids, rest2) =>
      match rest2 with
      | [] => .error .indexError
      | tok :: rest3 =>
        if tok = nc then .ok (ids.foldl dedupInsert [], rest3)
        else .error .malformed

/-- The wire loop of loadCircuit.  The null-wire test is modelled exactly
as written in the source: it compares len(wireCtrlFets) — the length of
the whole input stream — with 0, not the length of the parsed controlFets
set, so the null branch is unreachable whenever the stream is non-empty. -/
def parseWiresAux (x : CktInput) :
    Nat → Nat → List Nat → List Nat → List (Option LWire) → List (String × Nat) →
    Except LoadErr (List (Option LWire) × List (String × Nat))
  | 0, _, _, _, accW, accM => .ok (accW, accM)
  | n + 1, i, cf, wg, accW, accM =>
    match parseSeg x.nextCtrl cf with
    | .error e => .error e
    | .ok (controlFets, cf2) =>
      match parseSeg x.nextCtrl wg with
      | .error e => .error e
      | .ok (gates, wg2) =>
        if x.wireCtrlFets.length = 0 ∧ gates.length = 0 then
          if x.wireNames.getD i "" = "" then
            parseWiresAux x n (i + 1) cf2 wg2 (accW ++ [none]) accM
          else .error .malformed
        else
          parseWiresAux x n (i + 1) cf2 wg2
            (accW ++ [some ⟨x.wireNames.getD i "", controlFets, gates,
              x.wirePulled.getD i 0, x.wirePulled.getD i 0⟩])
            ((x.wireNames.getD i "", i) :: accM)

/-- The transistor loop: a record whose side1 is NO_WIRE must be fully
null (two asserts), otherwise an NmosFet is created with gate LOW. -/
def parseFetsAux (x : CktInput) :
    Nat → Nat → List (Option LFet) → Except LoadErr (List (Option LFet))
  | 0, _, acc => .ok acc
  | n + 1, i, acc =>
    let s1 := x.fetSide1.getD i 0
    let s2 := x.fetSide2.getD i 0
    let gate := x.fetGate.getD i 0
    if s1 = x.noWire then
      if s2 = x.noWire then
        if gate = x.noWire then parseFetsAux x n (i + 1) (acc ++ [none])
        else .error .malformed
      else .error .malformed
    else parseFetsAux x n (i + 1) (acc ++ [some ⟨s1, s2, gate, GATE_LOW⟩])

/-- wireList[i]._state = v; dereferencing a null slot is the
AttributeError kind. -/
def setRailState (wl : List (Option LWire)) (i : Nat) (v : Nat) :
    Except LoadErr (List (Option LWire)) :=
  match wl.getD i none with
  | none => .error .indexError
  | some w => .ok (wl.set i (some { w with state := v }))

/-- For each transistor index gated by VCC, set its gate state HIGH. -/
def initVccGates : List (Option LFet) → List Nat → Except LoadErr (List (Option LFet))
  | tl, [] => .ok tl
  | tl, t :: rest =>
    match tl.getD t none with
    | none => .error .indexError
    | some f => initVccGates (tl.set t (some { f with gateState := GATE_HIGH })) rest

def loadCircuit (x : CktInput) : Except LoadErr Loaded :=
  if x.wirePulled.length = x.numWires then
    if x.wireNames.length = x.numWires then
      if x.fetSide1.length = x.numFets then
        if x.fetSide2.length = x.numFets then
          if x.fetGate.length = x.numFets then
            match parseWiresAux x x.numWires 0 x.wireCtrlFets x.wireGates [] [] with
            | .error e => .error e
            | .ok (wl, nameMap) =>
              match parseFetsAux x x.numFets 0 [] with
              | .error e => .error e
              | .ok tl =>
                match List.lookup "VCC" nameMap with
                | none => .error .malformed
                | some vccIdx =>
                  match List.lookup "VSS" nameMap with
                  | none => .error .malformed
                  | some gndIdx =>
                    match setRailState wl vccIdx HIGH with
                    | .error e => .error e
                    | .ok wl2 =>
                      match setRailState wl2 gndIdx GROUNDED with
                      | .error e => .error e
                      | .ok wl3 =>
                        match wl3.getD vccIdx none with
                        | none => .error .indexError
                        | some vccWire =>
                          match initVccGates tl vccWire.gateInds with
                          | .error e => .error e
                          | .ok tl2 => .ok ⟨wl3, nameMap, tl2, vccIdx, gndIdx⟩
          else .error .malformed
        else .error .malformed
      else .error .malformed
    else .error .malformed
  else .error .malformed

/-! ### Accessors on a load result, for closed statements -/

def loadedSlot (e : Except LoadErr Loaded) (i : Nat) : Option LWire :=
  match e with
  | .ok r => r.wireList.getD i none
  | .error _ => none

def loadedName (e : Except LoadErr Loaded) (nm : String) : Option Nat :=
  match e with
  | .ok r => List.lookup nm r.wireNames
  | .error _ => none

def loadedFet (e : Except LoadErr Loaded) (t : Nat) : Option LFet :=
  match e with
  | .ok r => r.transistorList.getD t none
  | .error _ => none

def loadedCtInds (e : Except LoadErr Loaded) (i : Nat) : List Nat :=
  match loadedSlot e i with
  | some w => w.ctInds
  | none => []

/-! ## Claim C2 — the null-wire condition of the loader -/

/-- A three-wire netlist whose third wire has an empty control list, an
empty gate list and an empty name: per the claim it must load as the
null sentinel and stay out of the name map. -/
def exC2 : CktInput where
  numWires := 3
  nextCtrl := 0xFFFE
  noWire := 0xFFFD
  wirePulled := [0, 0, 0]
  wireCtrlFets := [0, 0xFFFE, 0, 0xFFFE, 0, 0xFFFE]
  wireGates := [0, 0xFFFE, 0, 0xFFFE, 0, 0xFFFE]
  wireNames := ["VCC", "VSS", ""]
  numFets := 0
  fetSide1 := []
  fetSide2 := []
  fetGate := []

/-- C2: the code checks len(wireCtrlFets) — the whole stream — instead of
the parsed control set, so the null branch never runs: wire 2 of exC2 has
empty control and gate lists and an empty name, yet loading succeeds with
a non-null Wire record in slot 2 and the empty name entered in the name
map, contradicting the claim (and the writer's round-trip intent). -/
theorem C2_loader_null_bug :
    (loadCircuit exC2).isOk = true
    ∧ loadedSlot (loadCircuit exC2) 2 = some ⟨"", [], [], 0, 0⟩
    ∧ loadedName (loadCircuit exC2) "" = some 2 := by
  refine ⟨?_, ?_, ?_⟩ <;> rfl

/-! ## Claim C8 — the loader's failure conditions -/

/-- A netlist whose transistor 0 has side wire 2, while wire 2's control
list is empty — the side-listing condition of the claim is violated. -/
def exC8 : CktInput where
  numWires := 3
  nextCtrl := 0xFFFE
  noWire := 0xFFFD
  wirePulled := [0, 0, 0]
  wireCtrlFets := [0, 0xFFFE, 0, 0xFFFE, 0, 0xFFFE]
  wireGates := [0, 0xFFFE, 0, 0xFFFE, 0, 0xFFFE]
  wireNames := ["VCC", "VSS", "A"]
  numFets := 1
  fetSide1 := [2]
  fetSide2 := [2]
  fetGate := [2]

/-- C8 counterexample: loading exC8 succeeds even though transistor 0's
side wire 2 does not list transistor 0 in its control set — the loader
never checks the side-listing condition, so the claimed "exactly when"
fails. -/
theorem C8_counterexample :
    (loadCircuit exC8).isOk = true
    ∧ loadedFet (loadCircuit exC8) 0 = some ⟨2, 2, 2, GATE_LOW⟩
    ∧ ¬(0 ∈ loadedCtInds (loadCircuit exC8) 2) := by
  refine ⟨?_, ?_, ?_⟩
  · rfl
  · rfl
  · decide

/-! ### Spec-side descriptions of the loader's input, for the amended
claim (modelled on the words of the spec's loading contract): array
lengths match the declared counts, each stream consists of n segments
[count, ids..., token], every segment's trailing token equals NEXT_CTRL,
null transistor records are fully null, the gate streams reference real
transistors, and the VCC/VSS names are present. -/

def lengthsOk (x : CktInput) : Prop :=
  x.wirePulled.length = x.numWires ∧ x.wireNames.length = x.numWires ∧
  x.fetSide1.length = x.numFets ∧ x.fetSide2.length = x.numFets ∧
  x.fetGate.length = x.numFets

instance lengthsOkDecidable (x : CktInput) : Decidable (lengthsOk x) := by
  unfold lengthsOk
  infer_instance

/-- The stream decomposes into n segments [count, ids(count), token]. -/
def shapeOk : Nat → List Nat → Bool
  | 0, _ => true
  | n + 1, s =>
    match s with
    | [] => false
    | c :: rest =>
      if (rest.take c).length = c then
        match rest.drop c with
        | [] => false
        | _ :: r2 => shapeOk n r2
      else false

/-- Every segment's trailing token is the NEXT_CTRL sentinel. -/
def sentinelsOk (nc : Nat) : Nat → List Nat → Bool
  | 0, _ => true
  | n + 1, s =>
    match s with
    | [] => false
    | c :: rest =>
      match rest.drop c with
      | [] => false
      | tok :: r2 => tok = nc && sentinelsOk nc n r2

/-- All ids carried by the first n segments of the stream. -/
def segIds : Nat → List Nat → List Nat
  | 0, _ => []
  | n + 1, s =>
    match s with
    | [] => []
    | c :: rest => rest.take c ++ segIds n ((rest.drop c).drop 1)

def noPartialNull (x : CktInput) : Prop :=
  ∀ i < x.numFets, x.fetSide1.getD i 0 = x.noWire →
    x.fetSide2.getD i 0 = x.noWire ∧ x.fetGate.getD i 0 = x.noWire

instance noPartialNullDecidable (x : CktInput) : Decidable (noPartialNull x) := by
  unfold noPartialNull
  infer_instance

def gateRefsOk (x : CktInput) : Prop :=
  ∀ t ∈ segIds x.numWires x.wireGates, t < x.numFets ∧ x.fetSide1.getD t 0 ≠ x.noWire

instance gateRefsOkDecidable (x : CktInput) : Decidable (gateRefsOk x) := by
  unfold gateRefsOk
  infer_instance

def railsPresent (x : CktInput) : Prop :=
  "VCC" ∈ x.wireNames ∧ "VSS" ∈ x.wireNames

instance railsPresentDecidable (x : CktInput) : Decidable (railsPresent x) := by
  unfold railsPresent
  infer_instance

/-! ### Segment-level parsing lemmas -/

theorem readIds_eq : ∀ (c : Nat) (rest : List Nat), c ≤ rest.length →
    readIds c rest = some (rest.take c, rest.drop c) := by
  intro c
  induction c with
  | zero =>
    intro rest _
    simp [readIds]
  | succ c ih =>
    intro rest h
    cases rest with
    | nil => simp at h
    | cons v r =>
      unfold readIds
      rw [ih r (Nat.le_of_succ_le_succ (by simpa using h))]
      simp

theorem parseSeg_shaped (nc c : Nat) (rest : List Nat) (htake : (rest.take c).length = c)
    (tok : Nat) (r2 : List Nat) (hdrop : rest.drop c = tok :: r2) :
    parseSeg nc (c :: rest) =
      (if tok = nc then .ok ((rest.take c).foldl dedupInsert [], r2)
       else .error .malformed) := by
  simp only [parseSeg]
  have hc : c ≤ rest.length := by
    have := List.length_take c rest
    omega
  rw [readIds_eq c rest hc, hdrop]

theorem shapeOk_succ {n : Nat} {s : List Nat} (h : shapeOk (n + 1) s = true) :
    ∃ c rest tok r2, s = c :: rest ∧ (rest.take c).length = c ∧
      rest.drop c = tok :: r2 ∧ shapeOk n r2 = true := by
  cases s with
  | nil => exact absurd h (by simp [shapeOk])
  | cons c rest =>
    refine ⟨c, rest, ?_⟩
    simp only [shapeOk] at h
    by_cases htake : (rest.take c).length = c
    · rw [if_pos htake] at h
      cases hd : rest.drop c with
      | nil =>
        rw [hd] at h
        exact absurd h (by simp)
      | cons tok r2 =>
        rw [hd] at h
        exact ⟨tok, r2, rfl, htake, rfl, h⟩
    · rw [if_neg htake] at h
      exact absurd h (by simp)

theorem sentinelsOk_succ_eq (nc n c tok : Nat) (rest r2 : List Nat)
    (hdrop : rest.drop c = tok :: r2) :
    sentinelsOk nc (n + 1) (c :: rest) = (decide (tok = nc) && sentinelsOk nc n r2) := by
  simp only [sentinelsOk]
  rw [hdrop]

theorem segIds_succ_eq (n c : Nat) (rest : List Nat) (tok : Nat) (r2 : List Nat)
    (hdrop : rest.drop c = tok :: r2) :
    segIds (n + 1) (c :: rest) = rest.take c ++ segIds n r2 := by
  simp only [segIds]
  rw [hdrop]
  rfl

theorem mem_dedupInsert {l : List Nat} {x j : Nat} (h : j ∈ dedupInsert l x) :
    j ∈ l ∨ j = x := by
  unfold dedupInsert at h
  split at h
  · exact Or.inl h
  · rcases List.mem_append.mp h with h | h
    · exact Or.inl h
    · exact Or.inr (List.mem_singleton.mp h)

theorem foldl_dedupInsert_sub :
    ∀ (l acc : List Nat) (j : Nat), j ∈ l.foldl dedupInsert acc → j ∈ acc ∨ j ∈ l := by
  intro l
  induction l with
  | nil =>
    intro acc j h
    exact Or.inl h
  | cons x xs ih =>
    intro acc j h
    rw [List.foldl_cons] at h
    rcases ih (dedupInsert acc x) j h with h | h
    · rcases mem_dedupInsert h with h | h
      · exact Or.inl h
      · exact Or.inr (h ▸ List.mem_cons_self x xs)
    · exact Or.inr (List.mem_cons_of_mem x h)

theorem lookup_mem {l : List (String × Nat)} {k : String} {v : Nat}
    (h : List.lookup k l = some v) : (k, v) ∈ l := by
  obtain ⟨l1, l2, rfl, _⟩ := List.lookup_eq_some_iff.mp h
  exact List.mem_append.mpr (Or.inr (List.mem_cons_self _ _))

theorem lookup_cons_isSome (k a : String) (i : Nat) (rest : List (String × Nat)) :
    (List.lookup k ((a, i) :: rest)).isSome = true ↔
      k = a ∨ (List.lookup k rest).isSome = true := by
  simp only [List.lookup_isSome_iff, List.mem_cons, beq_iff_eq]
  constructor
  · rintro ⟨p, hp | hp, hk⟩
    · left
      rw [hk, hp]
    · right
      exact ⟨p, hp, hk⟩
  · rintro (h | ⟨p, hp, hk⟩)
    · exact ⟨(a, i), Or.inl rfl, h⟩
    · exact ⟨p, Or.inr hp, hk⟩

/-! ### Step lemmas for the wire loop -/

theorem parseWiresAux_step_err1 (x : CktInput) (n i : Nat) {c1 : Nat} {rest1 : List Nat}
    (wg : List Nat) (accW : List (Option LWire)) (accM : List (String × Nat))
    (htake1 : (rest1.take c1).length = c1) {tok1 : Nat} {r21 : List Nat}
    (hdrop1 : rest1.drop c1 = tok1 :: r21) (ht1 : ¬tok1 = x.nextCtrl) :
    parseWiresAux x (n + 1) i (c1 :: rest1) wg accW accM = .error .malformed := by
  simp only [parseWiresAux]
  rw [parseSeg_shaped x.nextCtrl c1 rest1 htake1 tok1 r21 hdrop1, if_neg ht1]

theorem parseWiresAux_step_err2 (x : CktInput) (n i : Nat) {c1 c2 : Nat}
    {rest1 rest2 : List Nat} (accW : List (Option LWire)) (accM : List (String × Nat))
    (htake1 : (rest1.take c1).length = c1) {tok1 : Nat} {r21 : List Nat}
    (hdrop1 : rest1.drop c1 = tok1 :: r21) (ht1 : tok1 = x.nextCtrl)
    (htake2 : (rest2.take c2).length = c2) {tok2 : Nat} {r22 : List Nat}
    (hdrop2 : rest2.drop c2 = tok2 :: r22) (ht2 : ¬tok2 = x.nextCtrl) :
    parseWiresAux x (n + 1) i (c1 :: rest1) (c2 :: rest2) accW accM = .error .malformed := by
  simp only [parseWiresAux]
  rw [parseSeg_shaped x.nextCtrl c1 rest1 htake1 tok1 r21 hdrop1, if_pos ht1,
    parseSeg_shaped x.nextCtrl c2 rest2 htake2 tok2 r22 hdrop2, if_neg ht2]

theorem parseWiresAux_step_ok (x : CktInput) (n i : Nat) {c1 c2 : Nat}
    {rest1 rest2 : List Nat} (accW : List (Option LWire)) (accM : List (String × Nat))
    (htake1 : (rest1.take c1).length = c1) {tok1 : Nat} {r21 : List Nat}
    (hdrop1 : rest1.drop c1 = tok1 :: r21) (ht1 : tok1 = x.nextCtrl)
    (htake2 : (rest2.take c2).length = c2) {tok2 : Nat} {r22 : List Nat}
    (hdrop2 : rest2.drop c2 = tok2 :: r22) (ht2 : tok2 = x.nextCtrl)
    (hne : x.wireCtrlFets.length ≠ 0) :
    parseWiresAux x (n + 1) i (c1 :: rest1) (c2 :: rest2) accW accM =
      parseWiresAux x n (i + 1) r21 r22
        (accW ++ [some ⟨x.wireNames.getD i "", (rest1.take c1).foldl dedupInsert [],
          (rest2.take c2).foldl dedupInsert [], x.wirePulled.getD i 0,
          x.wirePulled.getD i 0⟩])
        ((x.wireNames.getD i "", i) :: accM) := by
  simp only [parseWiresAux]
  rw [parseSeg_shaped x.nextCtrl c1 rest1 htake1 tok1 r21 hdrop1, if_pos ht1,
    parseSeg_shaped x.nextCtrl c2 rest2 htake2 tok2 r22 hdrop2, if_pos ht2]
  exact if_neg (fun hcon => hne hcon.1)

/-- Characterization of the wire loop on a well-shaped pair of streams:
with matching sentinels everywhere it succeeds, all produced slots are
non-null, map indices stay below i + n, a name is found in the map iff it
is one of the n consumed wire names (or was there before), and every
produced wire's gate set is drawn from the ids of the gate stream; with
any sentinel mismatch it fails with the malformed error. -/
theorem parseWiresAux_char (x : CktInput) :
    ∀ (n i : Nat) (cf wg : List Nat) (accW : List (Option LWire))
      (accM : List (String × Nat)),
      shapeOk n cf = true → shapeOk n wg = true → x.wireCtrlFets.length ≠ 0 →
      (if sentinelsOk x.nextCtrl n cf = true ∧ sentinelsOk x.nextCtrl n wg = true then
        ∃ wl nm, parseWiresAux x n i cf wg accW accM = .ok (wl, nm)
          ∧ wl.length = accW.length + n
          ∧ (∀ o ∈ wl, o ∈ accW ∨ o.isSome = true)
          ∧ (∀ p ∈ nm, p ∈ accM ∨ p.2 < i + n)
          ∧ (∀ name : String,
              (List.lookup name nm).isSome = true ↔
                ((List.lookup name accM).isSome = true ∨
                 ∃ k, i ≤ k ∧ k < i + n ∧ x.wireNames.getD k "" = name))
          ∧ (∀ o ∈ wl, o ∈ accW ∨
              ∀ w : LWire, o = some w → ∀ t ∈ w.gateInds, t ∈ segIds n wg)
      else parseWiresAux x n i cf wg accW accM = .error .malformed) := by
  intro n
  induction n with
  | zero =>
    intro i cf wg accW accM _ _ _
    rw [if_pos ⟨rfl, rfl⟩]
    refine ⟨accW, accM, rfl, by omega, fun o ho => Or.inl ho, fun p hp => Or.inl hp,
      ?_, fun o ho => Or.inl ho⟩
    intro name
    constructor
    · intro h
      exact Or.inl h
    · rintro (h | ⟨k, hk1, hk2, _⟩)
      · exact h
      · omega
  | succ n ih =>
    intro i cf wg accW accM hsh1 hsh2 hne
    obtain ⟨c1, rest1, tok1, r21, rfl, htake1, hdrop1, hsh1r⟩ := shapeOk_succ hsh1
    obtain ⟨c2, rest2, tok2, r22, rfl, htake2, hdrop2, hsh2r⟩ := shapeOk_succ hsh2
    rw [sentinelsOk_succ_eq _ _ _ _ _ _ hdrop1, sentinelsOk_succ_eq _ _ _ _ _ _ hdrop2]
    by_cases ht1 : tok1 = x.nextCtrl
    · by_cases ht2 : tok2 = x.nextCtrl
      · have hih := ih (i + 1) r21 r22
          (accW ++ [some ⟨x.wireNames.getD i "", (rest1.take c1).foldl dedupInsert [],
            (rest2.take c2).foldl dedupInsert [], x.wirePulled.getD i 0,
            x.wirePulled.getD i 0⟩])
          ((x.wireNames.getD i "", i) :: accM) hsh1r hsh2r hne
        have hstep := parseWiresAux_step_ok x n i accW accM htake1 hdrop1 ht1
          htake2 hdrop2 ht2 hne
        by_cases hsent : sentinelsOk x.nextCtrl n r21 = true ∧
            sentinelsOk x.nextCtrl n r22 = true
        · rw [if_pos (by
            constructor
            · rw [decide_eq_true ht1, hsent.1]
              rfl
            · rw [decide_eq_true ht2, hsent.2]
              rfl)]
          rw [if_pos hsent] at hih
          obtain ⟨wl, nm, he, hlen, hsome, hmap, hlook, hgates⟩ := hih
          refine ⟨wl, nm, by rw [hstep]; exact he, ?_, ?_, ?_, ?_, ?_⟩
          · rw [hlen]
            simp only [List.length_append, List.length_cons, List.length_nil]
            omega
          · intro o ho
            rcases hsome o ho with ho2 | ho2
            · rcases List.mem_append.mp ho2 with ho3 | ho3
              · exact Or.inl ho3
              · right
                rw [List.mem_singleton.mp ho3]
                rfl
            · exact Or.inr ho2
          · intro p hp
            rcases hmap p hp with hp2 | hp2
            · rcases List.mem_cons.mp hp2 with hp3 | hp3
              · right
                rw [hp3]
                omega
              · exact Or.inl hp3
            · right
              omega
          · intro name
            rw [hlook name, lookup_cons_isSome]
            constructor
            · rintro (⟨h | h⟩ | ⟨k, hk1, hk2, hk3⟩)
              · right
                exact ⟨i, by omega, by omega, h.symm⟩
              · exact Or.inl h
              · right
                exact ⟨k, by omega, by omega, hk3⟩
            · rintro (h | ⟨k, hk1, hk2, hk3⟩)
              · exact Or.inl (Or.inr h)
              · by_cases hki : k = i
                · left
                  left
                  rw [← hki, hk3]
                · right
                  exact ⟨k, by omega, by omega, hk3⟩
          · intro o ho
            rcases hgates o ho with ho2 | ho2
            · rcases List.mem_append.mp ho2 with ho3 | ho3
              · exact Or.inl ho3
              · right
                intro w hw t ht
                rw [List.mem_singleton.mp ho3] at hw
                cases hw
                rw [segIds_succ_eq n c2 rest2 tok2 r22 hdrop2]
                refine List.mem_append.mpr (Or.inl ?_)
                rcases foldl_dedupInsert_sub _ _ _ ht with h3 | h3
                · exact absurd h3 (List.not_mem_nil t)
                · exact h3
            · right
              intro w hw t ht
              rw [segIds_succ_eq n c2 rest2 tok2 r22 hdrop2]
              exact List.mem_append.mpr (Or.inr (ho2 w hw t ht))
        · rw [if_neg (by
            intro hcon
            apply hsent
            constructor
            · rw [decide_eq_true ht1] at hcon
              simpa using hcon.1
            · rw [decide_eq_true ht2] at hcon
              simpa using hcon.2)]
          rw [if_neg hsent] at hih
          rw [hstep]
          exact hih
      · rw [if_neg (by
          intro hcon
          have := hcon.2
          rw [decide_eq_false ht2] at this
          simp at this)]
        exact parseWiresAux_step_err2 x n i accW accM htake1 hdrop1 ht1 htake2 hdrop2 ht2
    · rw [if_neg (by
        intro hcon
        have := hcon.1
        rw [decide_eq_false ht1] at this
        simp at this)]
      exact parseWiresAux_step_err1 x n i (c2 :: rest2) accW accM htake1 hdrop1 ht1

/-! ### The transistor loop and the rail initialisation -/

/-- The slots the transistor loop produces for indices i, i+1, ..., on a
partial-null-free input. -/
def fetSlots (x : CktInput) : Nat → Nat → List (Option LFet)
  | 0, _ => []
  | n + 1, i =>
    (if x.fetSide1.getD i 0 = x.noWire then none
     else some ⟨x.fetSide1.getD i 0, x.fetSide2.getD i 0, x.fetGate.getD i 0, GATE_LOW⟩)
      :: fetSlots x (n) (i + 1)

theorem parseFetsAux_eq (x : CktInput) :
    ∀ (n i : Nat) (acc : List (Option LFet)),
      (∀ k, i ≤ k → k < i + n → x.fetSide1.getD k 0 = x.noWire →
        x.fetSide2.getD k 0 = x.noWire ∧ x.fetGate.getD k 0 = x.noWire) →
      parseFetsAux x n i acc = .ok (acc ++ fetSlots x n i) := by
  intro n
  induction n with
  | zero =>
    intro i acc _
    simp [parseFetsAux, fetSlots]
  | succ n ih =>
    intro i acc hnp
    simp only [parseFetsAux]
    by_cases h1 : x.fetSide1.getD i 0 = x.noWire
    · have hnp2 := hnp i (le_refl i) (by omega) h1
      rw [if_pos h1, if_pos hnp2.1, if_pos hnp2.2,
        ih (i + 1) (acc ++ [none]) (fun k hk1 hk2 => hnp k (by omega) (by omega)),
        List.append_assoc,
        show fetSlots x (n + 1) i = none :: fetSlots x n (i + 1) by
          simp only [fetSlots]
          rw [if_pos h1]]
      rfl
    · rw [if_neg h1,
        ih (i + 1) _ (fun k hk1 hk2 => hnp k (by omega) (by omega)),
        List.append_assoc,
        show fetSlots x (n + 1) i =
            some ⟨x.fetSide1.getD i 0, x.fetSide2.getD i 0, x.fetGate.getD i 0, GATE_LOW⟩
              :: fetSlots x n (i + 1) by
          simp only [fetSlots]
          rw [if_neg h1]]
      rfl

theorem fetSlots_isSome (x : CktInput) :
    ∀ (n i k : Nat), k < n →
      (((fetSlots x n i).getD k none).isSome = true ↔
        x.fetSide1.getD (i + k) 0 ≠ x.noWire) := by
  intro n
  induction n with
  | zero =>
    intro i k h
    omega
  | succ n ih =>
    intro i k hk
    cases k with
    | zero =>
      simp only [fetSlots, List.getD_cons_zero, Nat.add_zero]
      by_cases h1 : x.fetSide1.getD i 0 = x.noWire
      · rw [if_pos h1]
        constructor
        · intro h
          exact Bool.noConfusion h
        · intro h
          exact absurd h1 h
      · rw [if_neg h1]
        constructor
        · intro _
          exact h1
        · intro _
          rfl
    | succ k =>
      simp only [fetSlots, List.getD_cons_succ]
      rw [ih (i + 1) k (by omega), show i + 1 + k = i + (k + 1) by omega]

theorem initVccGates_ok :
    ∀ (gl : List Nat) (tl : List (Option LFet)),
      (∀ t ∈ gl, (tl.getD t none).isSome = true) →
      ∃ tl2, initVccGates tl gl = .ok tl2 := by
  intro gl
  induction gl with
  | nil =>
    intro tl _
    exact ⟨tl, rfl⟩
  | cons t rest ih =>
    intro tl h
    have ht := h t (List.mem_cons_self t rest)
    cases hslot : tl.getD t none with
    | none =>
      rw [hslot] at ht
      simp at ht
    | some f =>
      simp only [initVccGates]
      rw [hslot]
      apply ih
      intro t2 ht2
      have htlen : t < tl.length := by
        by_contra hcon
        rw [List.getD_eq_default _ _ (Nat.le_of_not_lt hcon)] at hslot
        cases hslot
      by_cases he : t2 = t
      · rw [he, getD_set_self _ _ _ _ (by simpa using htlen)]
        rfl
      · rw [getD_set_ne _ _ _ _ _ (fun hcon => he hcon.symm)]
        exact h t2 (List.mem_cons_of_mem t ht2)

theorem setRailState_char (wl : List (Option LWire)) (i : Nat) (v : Nat) {w : LWire}
    (h : wl.getD i none = some w) :
    setRailState wl i v = .ok (wl.set i (some { w with state := v })) := by
  unfold setRailState
  rw [h]

/-- Every slot of wl is non-null and every non-null slot's gate list is
inside the given id set; both properties survive a state write. -/
def SlotsOk (wl : List (Option LWire)) (ids : List Nat) : Prop :=
  (∀ o ∈ wl, o.isSome = true) ∧
  (∀ o ∈ wl, ∀ w : LWire, o = some w → ∀ t ∈ w.gateInds, t ∈ ids)

theorem slotsOk_set {wl : List (Option LWire)} {ids : List Nat} (h : SlotsOk wl ids)
    (i : Nat) {w : LWire} (hw : wl.getD i none = some w) (v : Nat) :
    SlotsOk (wl.set i (some { w with state := v })) ids := by
  have hwmem : some w ∈ wl := by
    have hlen : i < wl.length := by
      by_contra hcon
      rw [List.getD_eq_default _ _ (Nat.le_of_not_lt hcon)] at hw
      cases hw
    rw [List.getD_eq_getElem _ _ hlen] at hw
    exact hw ▸ List.getElem_mem hlen
  constructor
  · intro o ho
    rcases List.mem_or_eq_of_mem_set ho with ho2 | ho2
    · exact h.1 o ho2
    · rw [ho2]
      rfl
  · intro o ho w2 hw2 t ht
    rcases List.mem_or_eq_of_mem_set ho with ho2 | ho2
    · exact h.2 o ho2 w2 hw2 t ht
    · rw [ho2] at hw2
      cases hw2
      exact h.2 (some w) hwmem w rfl t ht

theorem slotsOk_getD_some {wl : List (Option LWire)} {ids : List Nat}
    (h : SlotsOk wl ids) {i : Nat} (hi : i < wl.length) :
    ∃ w : LWire, wl.getD i none = some w := by
  rw [List.getD_eq_getElem _ _ hi]
  have hmem := List.getElem_mem (l := wl) (n := i) hi
  have hs := h.1 _ hmem
  cases hg : wl[i] with
  | none =>
    rw [hg] at hs
    cases hs
  | some w => exact ⟨w, rfl⟩

theorem slotsOk_gates {wl : List (Option LWire)} {ids : List Nat} (h : SlotsOk wl ids)
    {i : Nat} {w : LWire} (hw : wl.getD i none = some w) :
    ∀ t ∈ w.gateInds, t ∈ ids := by
  have hlen : i < wl.length := by
    by_contra hcon
    rw [List.getD_eq_default _ _ (Nat.le_of_not_lt hcon)] at hw
    cases hw
  have hwmem : some w ∈ wl := by
    rw [List.getD_eq_getElem _ _ hlen] at hw
    exact hw ▸ List.getElem_mem hlen
  exact h.2 (some w) hwmem w rfl

theorem loadCircuit_parse_err (x : CktInput)
    (hl1 : x.wirePulled.length = x.numWires) (hl2 : x.wireNames.length = x.numWires)
    (hl3 : x.fetSide1.length = x.numFets) (hl4 : x.fetSide2.length = x.numFets)
    (hl5 : x.fetGate.length = x.numFets)
    (hw : parseWiresAux x x.numWires 0 x.wireCtrlFets x.wireGates [] [] =
      .error .malformed) :
    loadCircuit x = .error .malformed := by
  unfold loadCircuit
  rw [if_pos hl1, if_pos hl2, if_pos hl3, if_pos hl4, if_pos hl5, hw]

theorem loadCircuit_tail (x : CktInput)
    (hl1 : x.wirePulled.length = x.numWires) (hl2 : x.wireNames.length = x.numWires)
    (hl3 : x.fetSide1.length = x.numFets) (hl4 : x.fetSide2.length = x.numFets)
    (hl5 : x.fetGate.length = x.numFets)
    {wl : List (Option LWire)} {nm : List (String × Nat)}
    (hw : parseWiresAux x x.numWires 0 x.wireCtrlFets x.wireGates [] [] = .ok (wl, nm))
    {tl : List (Option LFet)} (hf : parseFetsAux x x.numFets 0 [] = .ok tl) :
    loadCircuit x =
      (match List.lookup "VCC" nm with
       | none => .error .malformed
       | some vccIdx =>
         match List.lookup "VSS" nm with
         | none => .error .malformed
         | some gndIdx =>
           match setRailState wl vccIdx HIGH with
           | .error e => .error e
           | .ok wl2 =>
             match setRailState wl2 gndIdx GROUNDED with
             | .error e => .error e
             | .ok wl3 =>
               match wl3.getD vccIdx none with
               | none => .error .indexError
               | some vccWire =>
                 match initVccGates tl vccWire.gateInds with
                 | .error e => .error e
                 | .ok tl2 => .ok ⟨wl3, nm, tl2, vccIdx, gndIdx⟩) := by
  unfold loadCircuit
  rw [if_pos hl1, if_pos hl2, if_pos hl3, if_pos hl4, if_pos hl5, hw, hf]

/-- C8 amended: for a structurally consistent input (declared lengths
match, both streams decompose into numWires segments, null transistor
records are fully null, gate ids reference real transistors), loading
fails with MalformedNetlist exactly when some segment sentinel differs
from NEXT_CTRL or VCC/VSS is missing from the wire names, and succeeds
exactly otherwise; the side-listing condition of the original claim is
never checked. -/
theorem C8_loader_failure_amended (x : CktInput)
    (hlen : lengthsOk x)
    (hsh1 : shapeOk x.numWires x.wireCtrlFets = true)
    (hsh2 : shapeOk x.numWires x.wireGates = true)
    (hnp : noPartialNull x)
    (hgr : gateRefsOk x) :
    ((loadCircuit x = .error .malformed) ↔
      (¬sentinelsOk x.nextCtrl x.numWires x.wireCtrlFets = true ∨
       ¬sentinelsOk x.nextCtrl x.numWires x.wireGates = true ∨
       ¬railsPresent x))
    ∧ ((loadCircuit x).isOk = true ↔
      (sentinelsOk x.nextCtrl x.numWires x.wireCtrlFets = true ∧
       sentinelsOk x.nextCtrl x.numWires x.wireGates = true ∧
       railsPresent x)) := by
  obtain ⟨hl1, hl2, hl3, hl4, hl5⟩ := hlen
  have hfets : parseFetsAux x x.numFets 0 [] = .ok (fetSlots x x.numFets 0) := by
    have h := parseFetsAux_eq x x.numFets 0 []
      (fun k _ hk2 h1 => hnp k (by omega) h1)
    simpa using h
  by_cases hnw : x.numWires = 0
  · have hw : parseWiresAux x x.numWires 0 x.wireCtrlFets x.wireGates [] [] =
        .ok ([], []) := by
      rw [hnw]
      rfl
    have htail := loadCircuit_tail x hl1 hl2 hl3 hl4 hl5 hw hfets
    have hload : loadCircuit x = .error .malformed := by
      rw [htail]
      rfl
    have hnames : x.wireNames = [] :=
      List.eq_nil_of_length_eq_zero (hl2.trans hnw)
    have hnorails : ¬railsPresent x := by
      intro hr
      have hm := hr.1
      rw [hnames] at hm
      exact absurd hm (List.not_mem_nil _)
    rw [hload]
    constructor
    · constructor
      · intro _
        exact Or.inr (Or.inr hnorails)
      · intro _
        rfl
    · constructor
      · intro hcon
        exact Bool.noConfusion hcon
      · rintro ⟨_, _, hr⟩
        exact absurd hr hnorails
  · obtain ⟨m, hm⟩ := Nat.exists_eq_succ_of_ne_zero hnw
    have hne : x.wireCtrlFets.length ≠ 0 := by
      have hsh1b := hsh1
      rw [hm] at hsh1b
      obtain ⟨c, rest, tok, r2, heq, _, _, _⟩ := shapeOk_succ hsh1b
      rw [heq]
      simp
    have hchar := parseWiresAux_char x x.numWires 0 x.wireCtrlFets x.wireGates [] []
      hsh1 hsh2 hne
    by_cases hsent : sentinelsOk x.nextCtrl x.numWires x.wireCtrlFets = true ∧
        sentinelsOk x.nextCtrl x.numWires x.wireGates = true
    · rw [if_pos hsent] at hchar
      obtain ⟨wl, nm, he, hlenw, hsome, hmap, hlook, hgates⟩ := hchar
      have hsome2 : ∀ o ∈ wl, o.isSome = true :=
        fun o ho => (hsome o ho).resolve_left (fun hcon => absurd hcon (List.not_mem_nil o))
      have hmap2 : ∀ p ∈ nm, p.2 < x.numWires := by
        intro p hp
        have := (hmap p hp).resolve_left (fun hcon => absurd hcon (List.not_mem_nil p))
        omega
      have hlook2 : ∀ name : String, (List.lookup name nm).isSome = true ↔
          ∃ k, k < x.numWires ∧ x.wireNames.getD k "" = name := by
        intro name
        rw [hlook name]
        constructor
        · rintro (h | ⟨k, _, hk2, hk3⟩)
          · rw [List.lookup_nil] at h
            exact Bool.noConfusion h
          · exact ⟨k, by omega, hk3⟩
        · rintro ⟨k, hk1, hk3⟩
          exact Or.inr ⟨k, by omega, by omega, hk3⟩
      have hslots : SlotsOk wl (segIds x.numWires x.wireGates) :=
        ⟨hsome2, fun o ho =>
          ((hgates o ho).resolve_left (fun hcon => absurd hcon (List.not_mem_nil o)))⟩
      have htail := loadCircuit_tail x hl1 hl2 hl3 hl4 hl5 he hfets
      have hmemlook : ∀ name : String, name ∈ x.wireNames →
          (List.lookup name nm).isSome = true := by
        intro name hmem
        rw [hlook2]
        obtain ⟨k, hk, hke⟩ := List.getElem_of_mem hmem
        refine ⟨k, by omega, ?_⟩
        rw [List.getD_eq_getElem _ _ hk]
        exact hke
      have hlookmem : ∀ name : String, (List.lookup name nm).isSome = true →
          name ∈ x.wireNames := by
        intro name hl
        obtain ⟨k, hk, hke⟩ := (hlook2 name).mp hl
        have hk2 : k < x.wireNames.length := by omega
        rw [List.getD_eq_getElem _ _ hk2] at hke
        exact hke ▸ List.getElem_mem hk2
      by_cases hrails : railsPresent x
      · obtain ⟨v, hv⟩ := Option.isSome_iff_exists.mp (hmemlook "VCC" hrails.1)
        obtain ⟨g, hg⟩ := Option.isSome_iff_exists.mp (hmemlook "VSS" hrails.2)
        have hvlt : v < wl.length := by
          have := hmap2 _ (lookup_mem hv)
          omega
        obtain ⟨w1, hw1⟩ := slotsOk_getD_some hslots hvlt
        have hsr1 := setRailState_char wl v HIGH hw1
        have hslots2 := slotsOk_set hslots v hw1 HIGH
        have hglt : g < (wl.set v (some { w1 with state := HIGH })).length := by
          rw [List.length_set]
          have := hmap2 _ (lookup_mem hg)
          omega
        obtain ⟨w2, hw2⟩ := slotsOk_getD_some hslots2 hglt
        have hsr2 := setRailState_char _ g GROUNDED hw2
        have hslots3 := slotsOk_set hslots2 g hw2 GROUNDED
        have hvlt3 : v <
            (((wl.set v (some { w1 with state := HIGH })).set g
              (some { w2 with state := GROUNDED }))).length := by
          rw [List.length_set, List.length_set]
          omega
        obtain ⟨w3, hw3⟩ := slotsOk_getD_some hslots3 hvlt3
        have hinit := initVccGates_ok w3.gateInds (fetSlots x x.numFets 0)
          (fun t ht => by
            have hseg := slotsOk_gates hslots3 hw3 t ht
            have hq := hgr t hseg
            rw [fetSlots_isSome x x.numFets 0 t hq.1]
            simpa using hq.2)
        obtain ⟨tl2, htl2⟩ := hinit
        have hload : loadCircuit x =
            .ok ⟨((wl.set v (some { w1 with state := HIGH })).set g
              (some { w2 with state := GROUNDED })), nm, tl2, v, g⟩ := by
          simp only [htail, hv, hg, hsr1, hsr2, hw3, htl2]
        rw [hload]
        constructor
        · constructor
          · intro hcon
            exact Except.noConfusion hcon
          · rintro (h | h | h)
            · exact absurd hsent.1 h
            · exact absurd hsent.2 h
            · exact absurd hrails h
        · constructor
          · intro _
            exact ⟨hsent.1, hsent.2, hrails⟩
          · intro _
            rfl
      · have hfail : loadCircuit x = .error .malformed := by
          by_cases hvcc : "VCC" ∈ x.wireNames
          · have hvss : ¬"VSS" ∈ x.wireNames := fun hcon => hrails ⟨hvcc, hcon⟩
            obtain ⟨v, hv⟩ := Option.isSome_iff_exists.mp (hmemlook "VCC" hvcc)
            have hgl : List.lookup "VSS" nm = none := by
              cases h2 : List.lookup "VSS" nm with
              | none => rfl
              | some z =>
                exact absurd (hlookmem "VSS" (by rw [h2]; rfl)) hvss
            simp only [htail, hv, hgl]
          · have hvl : List.lookup "VCC" nm = none := by
              cases h2 : List.lookup "VCC" nm with
              | none => rfl
              | some z =>
                exact absurd (hlookmem "VCC" (by rw [h2]; rfl)) hvcc
            simp only [htail, hvl]
        rw [hfail]
        constructor
        · constructor
          · intro _
            exact Or.inr (Or.inr hrails)
          · intro _
            rfl
        · constructor
          · intro hcon
            exact Bool.noConfusion hcon
          · rintro ⟨_, _, hr⟩
            exact absurd hr hrails
    · rw [if_neg hsent] at hchar
      have hload := loadCircuit_parse_err x hl1 hl2 hl3 hl4 hl5 hchar
      rw [hload]
      constructor
      · constructor
        · intro _
          by_cases h1 : sentinelsOk x.nextCtrl x.numWires x.wireCtrlFets = true
          · exact Or.inr (Or.inl (fun h2 => hsent ⟨h1, h2⟩))
          · exact Or.inl h1
        · intro _
          rfl
      · constructor
        · intro hcon
          exact Bool.noConfusion hcon
        · rintro ⟨h1, h2, _⟩
          exact absurd ⟨h1, h2⟩ hsent

/-- C8 amended witness: the characterization applied to the concrete
well-shaped input exC2, whose sentinels all match and whose rails are
present, so loading succeeds. -/
theorem C8_loader_failure_amended_witness :
    ((loadCircuit exC2 = .error .malformed) ↔
      (¬sentinelsOk exC2.nextCtrl exC2.numWires exC2.wireCtrlFets = true ∨
       ¬sentinelsOk exC2.nextCtrl exC2.numWires exC2.wireGates = true ∨
       ¬railsPresent exC2))
    ∧ ((loadCircuit exC2).isOk = true ↔
      (sentinelsOk exC2.nextCtrl exC2.numWires exC2.wireCtrlFets = true ∧
       sentinelsOk exC2.nextCtrl exC2.numWires exC2.wireGates = true ∧
       railsPresent exC2)) :=
  C8_loader_failure_amended exC2 (by decide) (by decide) (by decide) (by decide) (by decide)

end Sim2600
